import Mathlib

/-!
Shallow embedding of `remote.py` from the `coinstac_ssr_vbm_mcic` repository:
the remote (aggregator) side of a two-phase single-shot decentralized
regression.  Numeric payload values are modelled as exact rationals (`ℚ`);
quantities that pass through `np.sqrt` live in `ℝ`.  A Python runtime error
(IndexError, broadcasting failure, `LinAlgError` from `scipy.linalg.inv`,
`ValueError` from the dispatcher) is modelled by returning `none`.
-/

namespace SSR

/-- A 1-D numeric array (a JSON list of numbers). -/
abbrev Vec := List ℚ

/-- A 2-D numeric array (a JSON list of lists of numbers). -/
abbrev Mat := List (List ℚ)

/-- Element-wise addition of two equal-length vectors (`ndarray +`). -/
def vadd (a b : Vec) : Vec := List.zipWith (· + ·) a b

/-- Element-wise sum of a list of equal-length vectors: Python's built-in
`sum` over 1-D arrays (the `0` start value is absorbed by the first array). -/
def vsumL : List Vec → Vec
  | [] => []
  | [v] => v
  | v :: vs => vadd v (vsumL vs)

/-- Element-wise addition of two same-shape matrices. -/
def madd (A B : Mat) : Mat := List.zipWith vadd A B

/-- Element-wise sum of a list of same-shape matrices: Python's built-in
`sum` over 2-D arrays. -/
def msumL : List Mat → Mat
  | [] => []
  | [M] => M
  | M :: Ms => madd M (msumL Ms)

/-- `np.array` on a list of 1-D rows succeeds as a rectangular 2-D array
only when all rows have one common length; return that length.
(`none` models the stacking/broadcasting failure on ragged input.) -/
def rectWidth? (vs : List Vec) : Option ℕ :=
  match vs with
  | [] => none
  | v :: rest => if rest.all (fun w => w.length = v.length) then some v.length else none

/-- Is `M` an `r × c` rectangular matrix? -/
def mrect (r c : ℕ) (M : Mat) : Bool := M.length = r && M.all (fun row => row.length = c)

/-- Common shape of a list of 2-D arrays, when all are rectangular with the
same shape (`np.array` stacking precondition for summation). -/
def matsShape? (ms : List Mat) : Option (ℕ × ℕ) :=
  match ms with
  | [] => none
  | M :: rest =>
    let r := M.length
    let c := (M.headD []).length
    if mrect r c M && rest.all (mrect r c) then some (r, c) else none

/-- Option-valued map over a list, failing if any element fails
(`mapM` specialized to `Option`, kept structurally recursive). -/
def mapOpt (f : α → Option β) : List α → Option (List β)
  | [] => some []
  | x :: xs =>
    match f x, mapOpt f xs with
    | some y, some ys => some (y :: ys)
    | _, _ => none

/-- A numeric JSON array as sent in `beta_vector_local`: either a flat list
(1-D `ndarray`) or a list of rows (2-D `ndarray`). -/
inductive NDArr where
  | d1 (v : Vec)
  | d2 (m : Mat)
deriving DecidableEq

/-- Project a 1-D array. -/
def NDArr.dim1? : NDArr → Option Vec
  | .d1 v => some v
  | .d2 _ => none

/-- Project a 2-D array. -/
def NDArr.dim2? : NDArr → Option Mat
  | .d1 _ => none
  | .d2 m => some m

/-- `np.average(list_of_arrays, axis=0)`: stack the arrays (they must all
have the same shape) and take the unweighted element-wise mean over the
stacking axis.  `none` models the numpy error on empty, ragged, or
mixed-dimension input. -/
def npAverage0 (bs : List NDArr) : Option NDArr :=
  match mapOpt NDArr.dim1? bs with
  | some vs =>
    match rectWidth? vs with
    | some _ =>
      let n : ℚ := vs.length
      some (.d1 ((vsumL vs).map (fun q => q / n)))
    | none => none
  | none =>
    match mapOpt NDArr.dim2? bs with
    | some ms =>
      match matsShape? ms with
      | some _ =>
        let n : ℚ := ms.length
        some (.d2 ((msumL ms).map (fun row => row.map (fun q => q / n))))
      | none => none
    | none => none

/-- One site's Phase-1 record (the fields `remote_1` reads).  The
`local_stats_dict` blob is opaque to the aggregator; we model it as a
string.  `mean_y_local` and `count_local` are per-output-dimension
vectors (the shape under which the downstream indexing in `remote_2`
is well-defined). -/
structure Site1 where
  beta_vector_local : NDArr
  mean_y_local : Vec
  count_local : Vec
  X_labels : List String
  y_labels : List String
  local_stats_dict : String
deriving DecidableEq

/-- The cache written by Phase-1 and consumed by Phase-2. -/
structure Cache1 where
  avg_beta_vector : Mat
  mean_y_global : Vec
  dof_global : Vec
  X_labels : List String
  y_labels : List String
  local_stats_dict : List String
deriving DecidableEq

/-- The Phase-1 result: the `output` dict plus the `cache` dict. -/
structure Remote1Out where
  out_avg_beta_vector : Mat
  out_mean_y_global : Vec
  out_computation_phase : String
  cache : Cache1
deriving DecidableEq

/-- Shallow embedding of `remote_1`.  The input payload is the ordered
site-id → record mapping (Python dicts preserve insertion order).
`none` models any runtime error: empty payload (`list(input_list)[0]`
raises IndexError), ragged arrays (numpy stacking error), shape-mismatched
broadcasting, or a 1-D averaged beta vector (`avg_beta_vector.shape[1]`
raises IndexError on a 1-D array). -/
def remote_1 (input_list : List (String × Site1)) : Option Remote1Out :=
  match input_list with
  | [] => none
  | (_, s0) :: _ =>
    let X_labels := s0.X_labels
    let y_labels := s0.y_labels
    let all_local_stats_dicts := input_list.map (fun s => s.2.local_stats_dict)
    match npAverage0 (input_list.map (fun s => s.2.beta_vector_local)) with
    | none => none
    | some avgND =>
      let mean_y_local := input_list.map (fun s => s.2.mean_y_local)
      let count_y_local := input_list.map (fun s => s.2.count_local)
      match rectWidth? mean_y_local, rectWidth? count_y_local with
      | some dm, some dc =>
        if dm = dc then
          let prods := List.zipWith (fun m c => List.zipWith (· * ·) m c) mean_y_local count_y_local
          let count_sum := vsumL count_y_local
          let mean_y_global := List.zipWith (· / ·) (vsumL prods) count_sum
          match avgND with
          | .d1 _ => none
          | .d2 avg_beta_vector =>
            let p := (avg_beta_vector.headD []).length
            let dof_global := count_sum.map (fun c => c - (p : ℚ))
            some {
              out_avg_beta_vector := avg_beta_vector
              out_mean_y_global := mean_y_global
              out_computation_phase := "remote_1"
              cache := {
                avg_beta_vector := avg_beta_vector
                mean_y_global := mean_y_global
                dof_global := dof_global
                X_labels := X_labels
                y_labels := y_labels
                local_stats_dict := all_local_stats_dicts } }
        else none
      | _, _ => none

/-- View a list-of-lists matrix as a square Mathlib matrix of size `p`
(out-of-range entries default to `0`; the callers guard rectangularity). -/
def toMat (p : ℕ) (M : Mat) : Matrix (Fin p) (Fin p) ℚ :=
  Matrix.of fun i j => (M.getD i []).getD j 0

/-- Remove the element at index `j` (used to form the minors of a matrix). -/
def dropNth (j : ℕ) : List α → List α
  | [] => []
  | x :: xs =>
    match j with
    | 0 => xs
    | j + 1 => x :: dropNth j xs

/-- Determinant of a square list matrix by Laplace expansion along the
first row (`detL_eq_det` below identifies it with `Matrix.det`).  This is
the exact-arithmetic condition under which `sp.linalg.inv` raises
`LinAlgError("singular matrix")`. -/
def detL : Mat → ℚ
  | [] => 1
  | row :: rest =>
    ((List.range row.length).map
      (fun j => (-1) ^ j * row.getD j 0 * detL (rest.map (dropNth j)))).sum
termination_by M => M.length
decreasing_by simp

/-- `sp.linalg.inv` on a square list matrix, returned as a list matrix. -/
noncomputable def matInvL (p : ℕ) (M : Mat) : Mat :=
  (List.finRange p).map fun i => (List.finRange p).map fun j => (toMat p M)⁻¹ i j

/-- `ndarray.diagonal()` of a square list matrix. -/
def diagL (M : Mat) : Vec := (List.range M.length).map fun i => (M.getD i []).getD i 0

/-- Scalar × matrix, element-wise. -/
def scaleM (c : ℚ) (M : Mat) : Mat := M.map fun row => row.map (fun q => c * q)

/-- NumPy 1-D broadcast compatibility: two one-dimensional arrays of
lengths `a` and `b` can be combined element-wise iff the lengths are equal
or one of them is `1` (the length-1 operand is repeated across the other);
any other mismatch raises `ValueError: operands could not be broadcast`. -/
def bcompat (a b : ℕ) : Prop := a = b ∨ a = 1 ∨ b = 1

instance (a b : ℕ) : Decidable (bcompat a b) := by
  unfold bcompat; infer_instance

/-- NumPy 1-D broadcast division `a / b`: element-wise when the lengths
are equal (including both empty, shape `(0,)`), with the length-1 operand
repeated across the other when exactly one length is `1` — so `(0,)`
divided by `(1,)` is again empty.  The final `[]` arm is the incompatible
case, never reached by `remote_2`, which guards each division with
`bcompat`. -/
def bdiv (a b : Vec) : Vec :=
  if a.length = b.length then List.zipWith (· / ·) a b
  else if a.length = 1 then b.map (fun y => a.headD 0 / y)
  else if b.length = 1 then a.map (fun x => x / b.headD 0)
  else []

/-- One site's Phase-2 record (the fields `remote_2` reads). -/
structure Site2 where
  SSE_local : Vec
  SST_local : Vec
  varX_matrix_local : Mat
deriving DecidableEq

/-- The argument of `remote_2`: the fresh per-site payload plus the Phase-1
cache. -/
structure Args2 where
  input : List (String × Site2)
  cache : Cache1

/-- The terminal Phase-2 result.  `global_stats` is the opaque rendering
artifact from `encode_png`; `local_stats` is `dict(zip(sites,
all_local_stats_dicts))` as an insertion-ordered association list;
`ts_global`/`ps_global` are the per-dimension statistic lists handed to the
`print_pvals` rendering sink. -/
structure Remote2Out where
  global_stats : String
  local_stats : List (String × String)
  ts_global : List (List ℝ)
  ps_global : List (List ℝ)
  success : Bool

/-- `SSE_global`: Python `sum` of the sites' local SSE arrays. -/
def sseGlobal (input : List (String × Site2)) : Vec :=
  vsumL (input.map fun s => s.2.SSE_local)

/-- `SST_global`: Python `sum` of the sites' local SST arrays. -/
def sstGlobal (input : List (String × Site2)) : Vec :=
  vsumL (input.map fun s => s.2.SST_local)

/-- `varX_matrix_global`: Python `sum` of the sites' local covariate
cross-product matrices. -/
def varXGlobal (input : List (String × Site2)) : Mat :=
  msumL (input.map fun s => s.2.varX_matrix_local)

/-- `r_squared_global = 1 - SSE_global/SST_global` (computed by `remote_2`
but dropped before the output dict is assembled; the division broadcasts). -/
def r2Global (input : List (String × Site2)) : Vec :=
  (bdiv (sseGlobal input) (sstGlobal input)).map (fun q => 1 - q)

/-- One iteration of the `for i in range(len(MSE))` loop of `remote_2`:
invert the global cross-product matrix (`sp.linalg.inv` raises on a
non-square or singular matrix — `none`), scale by `MSE[i]`, take the
diagonal and its square root to get the standard errors, divide the cached
coefficients by them, and convert to p-values via the external `t_to_p`
helper (a parameter, per the spec's collaborator contract). -/
noncomputable def dimStats (tToP : List ℝ → ℚ → List ℝ) (avg_beta_vector : Mat)
    (dof_global MSE : Vec) (varX_matrix_global : Mat) (i : ℕ) :
    Option (List ℝ × List ℝ) :=
  let p := varX_matrix_global.length
  if 0 < p ∧ varX_matrix_global.all (fun row => row.length = p) then
    if detL varX_matrix_global = 0 then none
    else
      let var_covar_beta_global := scaleM (MSE.getD i 0) (matInvL p varX_matrix_global)
      let se_beta_global := (diagL var_covar_beta_global).map (fun (q : ℚ) => Real.sqrt (q : ℝ))
      match avg_beta_vector[i]? with
      | none => none
      | some betai =>
        if betai.length = p then
          let ts := List.zipWith (fun (b : ℚ) (s : ℝ) => (b : ℝ) / s) betai se_beta_global
          let ps := tToP ts (dof_global.getD i 0)
          some (ts, ps)
        else none
  else none

/-- Shallow embedding of `remote_2`.  `tToP` stands for the excluded
`regression.t_to_p` collaborator and `encode_png_artifact` for the opaque
artifact returned by the excluded `encode_png` rendering collaborator.
`none` models any runtime error: an empty payload (the scalar `0/0` of the
R² line raises), ragged or shape-mismatched arrays (numpy error), a cached
`dof_global` whose length cannot broadcast against the SSE width
(`ValueError` in `MSE`), a non-square or singular global cross-product
matrix (`sp.linalg.inv`), or a missing `avg_beta_vector[i]` row
(IndexError).  Both divisions follow NumPy 1-D broadcasting: they require
`bcompat` of the two lengths and repeat a length-1 operand (`bdiv`), so
e.g. a `(0,)`-shaped `SSE_global` over a `(1,)`-shaped `dof_global` gives
an empty `MSE` and the per-dimension loop never runs.  The discarded
`r_squared_global` value of the source is `r2Global`; its only
operational effect, the `SSE/SST` broadcast requirement, is the
`bcompat de dt` guard. -/
noncomputable def remote_2 (tToP : List ℝ → ℚ → List ℝ)
    (encode_png_artifact : String) (args : Args2) : Option Remote2Out :=
  if args.input.isEmpty then none
  else
    match rectWidth? (args.input.map fun s => s.2.SSE_local),
          rectWidth? (args.input.map fun s => s.2.SST_local),
          matsShape? (args.input.map fun s => s.2.varX_matrix_local) with
    | some de, some dt, some _rc =>
      if bcompat de dt then
        let varX_matrix_global := varXGlobal args.input
        -- computed and immediately discarded by the source (line 150); its
        -- only operational effect is the SSE/SST broadcasting requirement,
        -- which is the `bcompat de dt` guard above
        let r_squared_global := r2Global args.input
        if bcompat de args.cache.dof_global.length then
          let MSE := bdiv (sseGlobal args.input) args.cache.dof_global
          match mapOpt
              (dimStats tToP args.cache.avg_beta_vector args.cache.dof_global
                MSE varX_matrix_global) (List.range MSE.length) with
          | none => none
          | some tsps =>
            let ts_global := tsps.map Prod.fst
            let ps_global := tsps.map Prod.snd
            let sites := args.input.map Prod.fst
            some {
              global_stats := encode_png_artifact
              local_stats := List.zip sites args.cache.local_stats_dict
              ts_global := ts_global
              ps_global := ps_global
              success := true }
        else none
      else none
    | _, _, _ => none

/-- Which combiner the `__main__` dispatcher routes to. -/
inductive Route where
  | phase1
  | phase2
deriving DecidableEq

/-- The `__main__` dispatcher of `remote.py`, acting on the list of
`computation_phase` tags extracted from the payload by the excluded
`regression.list_recursive` collaborator.  `none` models the fatal
`ValueError("Error occurred at Remote")`: the process terminates and no
output is written. -/
def dispatch (phase_key : List String) : Option Route :=
  if "local_1" ∈ phase_key then some Route.phase1
  else if "local_2" ∈ phase_key then some Route.phase2
  else none

/-- The 2-D payload of an `NDArr` (empty for a 1-D array). -/
def NDArr.mat : NDArr → Mat
  | .d1 _ => []
  | .d2 m => m

/-- Does a `beta_vector_local` payload hold a 2-D `d × p` matrix? -/
def beta2D (d p : ℕ) : NDArr → Bool
  | .d1 _ => false
  | .d2 m => mrect d p m

/-- Is a `beta_vector_local` payload 1-D? -/
def beta1D : NDArr → Bool
  | .d1 _ => true
  | .d2 _ => false

/-- Well-formedness of a Phase-1 payload: at least one site, every site's
coefficient vector a 2-D `d × p` matrix with `d ≥ 1`, and every site's
mean-response and count vectors of one common width `w`. -/
def phase1OK (input : List (String × Site1)) (d p w : ℕ) : Prop :=
  input ≠ [] ∧ 0 < d ∧
  (∀ s ∈ input, beta2D d p s.2.beta_vector_local = true) ∧
  (∀ s ∈ input, s.2.mean_y_local.length = w) ∧
  (∀ s ∈ input, s.2.count_local.length = w)

instance (input : List (String × Site1)) (d p w : ℕ) : Decidable (phase1OK input d p w) := by
  unfold phase1OK; infer_instance

/-- Reference value following the spec text: the global coefficient vector
is the element-wise **unweighted** arithmetic mean, across sites, of the
sites' local coefficient vectors. -/
def specAvgBeta (d p : ℕ) (input : List (String × Site1)) : Mat :=
  (List.range d).map fun i => (List.range p).map fun j =>
    (input.map fun s => ((s.2.beta_vector_local.mat).getD i []).getD j 0).sum
      / (input.length : ℚ)

/-- Reference value following the spec text: the global mean response is the
**count-weighted** average `Σ(local_mean_i × count_i) / Σ(count_i)`,
element-wise over the `w` output dimensions. -/
def specMeanY (w : ℕ) (input : List (String × Site1)) : Vec :=
  (List.range w).map fun j =>
    (input.map fun s => s.2.mean_y_local.getD j 0 * s.2.count_local.getD j 0).sum
      / (input.map fun s => s.2.count_local.getD j 0).sum

/-- Reference value following the spec text: the global degrees of freedom
are `Σ count_i − p`, per output dimension. -/
def specDof (w p : ℕ) (input : List (String × Site1)) : Vec :=
  (List.range w).map fun j =>
    (input.map fun s => s.2.count_local.getD j 0).sum - (p : ℚ)

/-- Reference value following the spec text: the global SSE is the
element-wise sum across sites of the local SSE. -/
def specSSE (d : ℕ) (input : List (String × Site2)) : Vec :=
  (List.range d).map fun j => (input.map fun s => s.2.SSE_local.getD j 0).sum

/-- Reference value following the spec text: the global SST is the
element-wise sum across sites of the local SST. -/
def specSST (d : ℕ) (input : List (String × Site2)) : Vec :=
  (List.range d).map fun j => (input.map fun s => s.2.SST_local.getD j 0).sum

/-- Reference value following the spec text: the global covariate
cross-product matrix is the element-wise sum across sites of the local
cross-product matrices. -/
def specVarX (p : ℕ) (input : List (String × Site2)) : Mat :=
  (List.range p).map fun i => (List.range p).map fun j =>
    (input.map fun s => (s.2.varX_matrix_local.getD i []).getD j 0).sum

/-- Well-formedness of a Phase-2 invocation: at least one site, all local
SSE/SST vectors of common width `d ≥ 1`, all local cross-product matrices
square of size `p ≥ 1`, a cached `dof_global` of width `d`, a cached
coefficient matrix with at least `d` rows each of width `p`, and a
nonsingular summed cross-product matrix. -/
def phase2OK (args : Args2) (d p : ℕ) : Prop :=
  args.input ≠ [] ∧ 0 < d ∧ 0 < p ∧
  (∀ s ∈ args.input, s.2.SSE_local.length = d) ∧
  (∀ s ∈ args.input, s.2.SST_local.length = d) ∧
  (∀ s ∈ args.input, mrect p p s.2.varX_matrix_local = true) ∧
  args.cache.dof_global.length = d ∧
  d ≤ args.cache.avg_beta_vector.length ∧
  (∀ row ∈ args.cache.avg_beta_vector, row.length = p) ∧
  detL (varXGlobal args.input) ≠ 0

instance (args : Args2) (d p : ℕ) : Decidable (phase2OK args d p) := by
  unfold phase2OK; infer_instance

/-- The standard errors `remote_2` computes for output dimension `i`
(`np.sqrt` of the diagonal of `MSE[i] * sp.linalg.inv(varX_matrix_global)`),
as a function of the Phase-2 arguments. -/
noncomputable def seVal (args : Args2) (i : ℕ) : List ℝ :=
  (diagL (scaleM ((bdiv (sseGlobal args.input) args.cache.dof_global).getD i 0)
    (matInvL (varXGlobal args.input).length (varXGlobal args.input)))).map
    fun (q : ℚ) => Real.sqrt (q : ℝ)

/-- Reference value following the spec text: the per-coefficient standard
errors for output dimension `i` are the element-wise square root of the
diagonal of `MSE[i] ×` the matrix inverse of the summed cross-product
matrix, where `MSE[i]` is the summed SSE at `i` divided by the cached
degrees of freedom at `i`. -/
noncomputable def specSE (args : Args2) (p i : ℕ) : List ℝ :=
  (List.finRange p).map fun j =>
    Real.sqrt ((((args.input.map fun s => s.2.SSE_local.getD i 0).sum
        / args.cache.dof_global.getD i 0)
      * ((toMat p (specVarX p args.input))⁻¹ j j) : ℚ))

/-- Reference value following the spec text: the t-statistics for output
dimension `i` are the cached coefficients divided element-wise by the
standard errors `specSE`. -/
noncomputable def specTS (args : Args2) (d p : ℕ) : List (List ℝ) :=
  (List.range d).map fun i =>
    List.zipWith (fun (b : ℚ) (s : ℝ) => (b : ℝ) / s)
      (args.cache.avg_beta_vector.getD i []) (specSE args p i)

/-- A concrete Phase-1 site record (site A of the spec's worked example:
local mean 2.0, local count 10). -/
def siteA : Site1 :=
  { beta_vector_local := .d2 [[1, 2]]
    mean_y_local := [2]
    count_local := [10]
    X_labels := ["const", "age"]
    y_labels := ["y0"]
    local_stats_dict := "statsA" }

/-- A concrete Phase-1 site record (site B of the spec's worked example:
local mean 4.0, local count 30). -/
def siteB : Site1 :=
  { beta_vector_local := .d2 [[3, 4]]
    mean_y_local := [4]
    count_local := [30]
    X_labels := ["const", "age"]
    y_labels := ["y0"]
    local_stats_dict := "statsB" }

/-- The two-site Phase-1 payload of the spec's worked example. -/
def ex2 : List (String × Site1) := [("local0", siteA), ("local1", siteB)]

/-- A Phase-1 payload whose single site sends a 1-D coefficient vector. -/
def ex1d : List (String × Site1) :=
  [("local0",
    { beta_vector_local := .d1 [1, 2]
      mean_y_local := [2]
      count_local := [10]
      X_labels := ["const", "age"]
      y_labels := ["y0"]
      local_stats_dict := "stats0" })]

/-- A concrete Phase-2 site record for site A. -/
def site2A : Site2 := { SSE_local := [2], SST_local := [8], varX_matrix_local := [[1]] }

/-- A concrete Phase-2 site record for site B. -/
def site2B : Site2 := { SSE_local := [3], SST_local := [12], varX_matrix_local := [[3]] }

/-- The two-site Phase-2 payload used in concrete instantiations. -/
def ex2p : List (String × Site2) := [("local0", site2A), ("local1", site2B)]

/-- A Phase-2 site record whose only covariate column is all zeros. -/
def site2Z : Site2 := { SSE_local := [2], SST_local := [8], varX_matrix_local := [[0]] }

/-- A concrete Phase-1 cache (as produced for a `p = 1` model). -/
def cacheX : Cache1 :=
  { avg_beta_vector := [[5]]
    mean_y_global := [3]
    dof_global := [38]
    X_labels := ["const"]
    y_labels := ["y0"]
    local_stats_dict := ["statsA", "statsB"] }

/-- A Phase-2 invocation whose summed cross-product matrix is singular. -/
def exSing : Args2 := { input := [("local0", site2Z), ("local1", site2Z)], cache := cacheX }

/-- A Phase-2 site record with empty `SSE_local`/`SST_local` payloads
(zero output dimensions) and an all-zero 1 × 1 cross-product matrix. -/
def site2E : Site2 := { SSE_local := [], SST_local := [], varX_matrix_local := [[0]] }

/-- A Phase-2 invocation whose summed cross-product matrix is singular but
whose per-site SSE payloads are all empty, while the cached `dof_global`
is the nonempty `[38]`. -/
def exSingEmpty : Args2 :=
  { input := [("local0", site2E), ("local1", site2E)], cache := cacheX }

/-- A well-formed Phase-2 invocation (`d = p = 1`, nonsingular). -/
def exOk : Args2 := { input := ex2p, cache := cacheX }

/-- `cacheX` with different `mean_y_global`, `X_labels`, `y_labels` (the
fields Phase-2 does not consume for its output). -/
def cacheX' : Cache1 :=
  { avg_beta_vector := [[5]]
    mean_y_global := [99]
    dof_global := [38]
    X_labels := ["other"]
    y_labels := ["z9"]
    local_stats_dict := ["statsA", "statsB"] }

/-- A Phase-2 site record for site `local0` with a 2 × 2 cross-product
matrix (matching the `p = 2` model of `ex2`). -/
def site2C : Site2 :=
  { SSE_local := [2], SST_local := [8], varX_matrix_local := [[1, 0], [0, 1]] }

/-- A Phase-2 site record for site `local1` with a 2 × 2 cross-product
matrix (matching the `p = 2` model of `ex2`). -/
def site2D : Site2 :=
  { SSE_local := [3], SST_local := [12], varX_matrix_local := [[1, 0], [0, 2]] }

/-- A Phase-2 payload over the same site set as `ex2` but with the two
sites in the opposite iteration order. -/
def ex2pSwap : List (String × Site2) := [("local1", site2D), ("local0", site2C)]

/-- The same Phase-2 payload in `ex2`'s site order. -/
def ex2pAligned : List (String × Site2) := [("local0", site2C), ("local1", site2D)]

/-! ### Basic lemmas about the list operations -/

theorem getD_zipWith {α β γ : Type _} (f : α → β → γ) (a : List α) (b : List β)
    (da : α) (db : β) (d : γ) (hlen : a.length = b.length) (hd : f da db = d) (i : ℕ) :
    (List.zipWith f a b).getD i d = f (a.getD i da) (b.getD i db) := by
  induction a generalizing b i with
  | nil =>
    cases b with
    | nil => simp [hd.symm]
    | cons y ys => simp at hlen
  | cons x xs ih =>
    cases b with
    | nil => simp at hlen
    | cons y ys =>
      cases i with
      | zero => simp
      | succ n =>
        simp only [List.zipWith_cons_cons, List.getD_cons_succ]
        exact ih ys (by simpa using hlen) n

theorem zipWith_length_eq {α β γ : Type _} (f : α → β → γ) (a : List α) (b : List β)
    (hlen : a.length = b.length) : (List.zipWith f a b).length = a.length := by
  simp [hlen]

theorem mapOpt_eq_some_iff {α β : Type _} (f : α → Option β) (l : List α) (ys : List β) :
    mapOpt f l = some ys ↔
      ys.length = l.length ∧ ∀ i (h1 : i < l.length) (h2 : i < ys.length), f l[i] = some ys[i] := by
  induction l generalizing ys with
  | nil =>
    simp only [mapOpt]
    constructor
    · intro h
      obtain rfl : ([] : List β) = ys := by simpa using h
      simp
    · rintro ⟨hlen, _⟩
      cases ys with
      | nil => rfl
      | cons y ys => simp at hlen
  | cons x xs ih =>
    simp only [mapOpt]
    constructor
    · intro h
      cases hfx : f x with
      | none => rw [hfx] at h; simp at h
      | some y =>
        rw [hfx] at h
        cases hrest : mapOpt f xs with
        | none => rw [hrest] at h; simp at h
        | some zs =>
          rw [hrest] at h
          simp only [Option.some.injEq] at h
          subst h
          obtain ⟨hlen, hel⟩ := (ih zs).mp hrest
          refine ⟨by simp [hlen], ?_⟩
          intro i h1 h2
          cases i with
          | zero => simpa using hfx
          | succ n =>
            simp only [List.getElem_cons_succ]
            exact hel n (by simpa using h1) (by simpa using h2)
    · rintro ⟨hlen, hel⟩
      cases ys with
      | nil => simp at hlen
      | cons y zs =>
        have hfx : f x = some y := by simpa using hel 0 (by simp) (by simp)
        have hrest : mapOpt f xs = some zs := by
          refine (ih zs).mpr ⟨by simpa using hlen, ?_⟩
          intro i h1 h2
          simpa using hel (i + 1) (by simpa using h1) (by simpa using h2)
        rw [hfx, hrest]

theorem mapOpt_isSome_mem {α β : Type _} (f : α → Option β) (l : List α)
    (h : (mapOpt f l).isSome = true) : ∀ x ∈ l, (f x).isSome = true := by
  induction l with
  | nil => simp
  | cons a as ih =>
    intro x hx
    simp only [mapOpt] at h
    cases hfa : f a with
    | none => rw [hfa] at h; simp at h
    | some y =>
      rw [hfa] at h
      cases hrest : mapOpt f as with
      | none => rw [hrest] at h; simp at h
      | some ys =>
        rcases List.mem_cons.mp hx with rfl | hx'
        · simp [hfa]
        · exact ih (by simp [hrest]) x hx'

theorem mapOpt_eq_map {α β : Type _} (f : α → Option β) (g : α → β) (l : List α)
    (h : ∀ x ∈ l, f x = some (g x)) : mapOpt f l = some (l.map g) := by
  induction l with
  | nil => rfl
  | cons x xs ih =>
    simp only [mapOpt, h x (by simp), ih (fun z hz => h z (by simp [hz])), List.map_cons]

theorem mapOpt_cons_of_none {α β : Type _} (f : α → Option β) (x : α) (xs : List α)
    (h : f x = none) : mapOpt f (x :: xs) = none := by
  simp [mapOpt, h]

/-- `vsumL` of nonempty equal-length vectors has that common length. -/
theorem vsumL_length (vs : List Vec) (L : ℕ) (hne : vs ≠ [])
    (hl : ∀ v ∈ vs, v.length = L) : (vsumL vs).length = L := by
  induction vs with
  | nil => exact absurd rfl hne
  | cons v rest ih =>
    cases rest with
    | nil => simpa [vsumL] using hl v (by simp)
    | cons w ws =>
      show (vadd v (vsumL (w :: ws))).length = L
      rw [vadd, zipWith_length_eq]
      · exact hl v (by simp)
      · rw [ih (by simp) (fun u hu => hl u (by simp [hu]))]
        exact hl v (by simp)

/-- Entry-wise description of `vsumL` on equal-length vectors. -/
theorem vsumL_getD (vs : List Vec) (L : ℕ) (hne : vs ≠ [])
    (hl : ∀ v ∈ vs, v.length = L) (j : ℕ) :
    (vsumL vs).getD j 0 = (vs.map (fun v => v.getD j 0)).sum := by
  induction vs with
  | nil => exact absurd rfl hne
  | cons v rest ih =>
    cases rest with
    | nil => simp [vsumL]
    | cons w ws =>
      have hv : v.length = L := hl v (by simp)
      have hrest : ∀ u ∈ w :: ws, u.length = L := fun u hu => hl u (by simp [hu])
      have hlsum : (vsumL (w :: ws)).length = L := vsumL_length _ L (by simp) hrest
      show (vadd v (vsumL (w :: ws))).getD j 0 = _
      rw [vadd, getD_zipWith (· + ·) v (vsumL (w :: ws)) 0 0 0 (hv.trans hlsum.symm) (by ring) j]
      rw [ih (by simp) hrest]
      simp

/-- `msumL` of nonempty equal-height matrices has that common height. -/
theorem msumL_length (ms : List Mat) (r : ℕ) (hne : ms ≠ [])
    (hl : ∀ M ∈ ms, M.length = r) : (msumL ms).length = r := by
  induction ms with
  | nil => exact absurd rfl hne
  | cons M rest ih =>
    cases rest with
    | nil => simpa [msumL] using hl M (by simp)
    | cons N ns =>
      show (madd M (msumL (N :: ns))).length = r
      rw [madd, zipWith_length_eq]
      · exact hl M (by simp)
      · rw [ih (by simp) (fun K hK => hl K (by simp [hK]))]
        exact hl M (by simp)

/-- Row-wise description of `msumL` on equal-height matrices. -/
theorem msumL_getD_row (ms : List Mat) (r : ℕ) (hne : ms ≠ [])
    (hl : ∀ M ∈ ms, M.length = r) (i : ℕ) :
    (msumL ms).getD i [] = vsumL (ms.map (fun M => M.getD i [])) := by
  induction ms with
  | nil => exact absurd rfl hne
  | cons M rest ih =>
    cases rest with
    | nil => simp [msumL, vsumL]
    | cons N ns =>
      have hrest : ∀ K ∈ N :: ns, K.length = r := fun K hK => hl K (by simp [hK])
      have hlen : (msumL (N :: ns)).length = r := msumL_length _ r (by simp) hrest
      show (madd M (msumL (N :: ns))).getD i [] = _
      rw [madd, getD_zipWith vadd M (msumL (N :: ns)) [] [] []
        ((hl M (by simp)).trans hlen.symm) rfl i]
      rw [ih (by simp) hrest]
      rfl


theorem headD_map {α β : Type _} (f : α → β) (l : List α) (d : β) (d' : α) (hne : l ≠ []) :
    (l.map f).headD d = f (l.headD d') := by
  cases l with
  | nil => exact absurd rfl hne
  | cons x xs => rfl

theorem remote_1_cons_eq (u0 : String) (s0 : Site1) (rest : List (String × Site1))
    (d p w : ℕ) (h : phase1OK ((u0, s0) :: rest) d p w) :
    remote_1 ((u0, s0) :: rest) = some {
      out_avg_beta_vector :=
        (msumL (((u0, s0) :: rest).map fun s => s.2.beta_vector_local.mat)).map
          (fun row => row.map (fun q => q / ((((u0, s0) :: rest).length : ℕ) : ℚ)))
      out_mean_y_global :=
        List.zipWith (· / ·)
          (vsumL (List.zipWith (fun m c => List.zipWith (· * ·) m c)
            (((u0, s0) :: rest).map fun s => s.2.mean_y_local)
            (((u0, s0) :: rest).map fun s => s.2.count_local)))
          (vsumL (((u0, s0) :: rest).map fun s => s.2.count_local))
      out_computation_phase := "remote_1"
      cache := {
        avg_beta_vector :=
          (msumL (((u0, s0) :: rest).map fun s => s.2.beta_vector_local.mat)).map
            (fun row => row.map (fun q => q / ((((u0, s0) :: rest).length : ℕ) : ℚ)))
        mean_y_global :=
          List.zipWith (· / ·)
            (vsumL (List.zipWith (fun m c => List.zipWith (· * ·) m c)
              (((u0, s0) :: rest).map fun s => s.2.mean_y_local)
              (((u0, s0) :: rest).map fun s => s.2.count_local)))
            (vsumL (((u0, s0) :: rest).map fun s => s.2.count_local))
        dof_global :=
          (vsumL (((u0, s0) :: rest).map fun s => s.2.count_local)).map (fun c => c - (p : ℚ))
        X_labels := s0.X_labels
        y_labels := s0.y_labels
        local_stats_dict := ((u0, s0) :: rest).map (fun s => s.2.local_stats_dict) } } := by
  obtain ⟨hne, hd, hbeta, hmean, hcount⟩ := h
  set input : List (String × Site1) := (u0, s0) :: rest with hinput
  -- every site's beta payload is a 2-D d × p matrix
  have hbmat : ∀ s ∈ input, s.2.beta_vector_local.dim2? = some s.2.beta_vector_local.mat := by
    intro s hs
    have := hbeta s hs
    cases hb : s.2.beta_vector_local with
    | d1 v => rw [hb] at this; simp [beta2D] at this
    | d2 m => simp [NDArr.dim2?, NDArr.mat]
  have hBshape : ∀ B ∈ input.map (fun s => s.2.beta_vector_local.mat), mrect d p B = true := by
    intro B hB
    obtain ⟨s, hs, rfl⟩ := List.mem_map.mp hB
    have := hbeta s hs
    cases hb : s.2.beta_vector_local with
    | d1 v => rw [hb] at this; simp [beta2D] at this
    | d2 m => rw [hb] at this; simpa [beta2D, NDArr.mat] using this
  -- the first beta payload is 2-D, so the 1-D branch of npAverage0 fails
  have hs0beta := hbeta (u0, s0) (by simp [hinput])
  have hA1 : mapOpt NDArr.dim1? (input.map fun s => s.2.beta_vector_local) = none := by
    cases hb : s0.beta_vector_local with
    | d1 v => rw [hb] at hs0beta; simp [beta2D] at hs0beta
    | d2 m =>
      rw [hinput]
      exact mapOpt_cons_of_none _ _ _ (by simp [hb, NDArr.dim1?])
  have hA2 : mapOpt NDArr.dim2? (input.map fun s => s.2.beta_vector_local) =
      some (input.map fun s => s.2.beta_vector_local.mat) := by
    rw [show (input.map fun s => s.2.beta_vector_local.mat) =
        (input.map fun s => s.2.beta_vector_local).map NDArr.mat by simp [List.map_map]]
    refine mapOpt_eq_map _ _ _ ?_
    intro b hb
    obtain ⟨s, hs, rfl⟩ := List.mem_map.mp hb
    exact hbmat s hs
  -- shape analysis of the stacked beta matrices
  have hB0 : mrect d p (s0.beta_vector_local.mat) = true :=
    hBshape _ (by simp [hinput])
  have hB0len : (s0.beta_vector_local.mat).length = d := by
    simp only [mrect, Bool.and_eq_true, decide_eq_true_eq] at hB0; exact hB0.1
  have hB0rows : ∀ r ∈ s0.beta_vector_local.mat, r.length = p := by
    intro r hr
    simp only [mrect, Bool.and_eq_true, List.all_eq_true, decide_eq_true_eq] at hB0
    exact hB0.2 r hr
  have hB0head : ((s0.beta_vector_local.mat).headD []).length = p := by
    cases hbm : s0.beta_vector_local.mat with
    | nil => rw [hbm] at hB0len; simp at hB0len; omega
    | cons r rs => exact hB0rows r (by simp [hbm])
  have hA3 : matsShape? (input.map fun s => s.2.beta_vector_local.mat) = some (d, p) := by
    rw [hinput]
    simp only [List.map_cons, matsShape?]
    rw [hB0len, hB0head]
    have hall : ∀ B ∈ (rest.map fun s => s.2.beta_vector_local.mat), mrect d p B = true := by
      intro B hB
      obtain ⟨s, hs, rfl⟩ := List.mem_map.mp hB
      exact hBshape _ (List.mem_map.mpr ⟨s, by simp [hinput, hs], rfl⟩)
    have : (rest.map fun s => s.2.beta_vector_local.mat).all (mrect d p) = true := by
      rw [List.all_eq_true]; exact hall
    rw [hB0, this]
    simp
  -- Step B: the unweighted average of the stacked beta matrices
  have hB : npAverage0 (input.map fun s => s.2.beta_vector_local) =
      some (.d2 ((msumL (input.map fun s => s.2.beta_vector_local.mat)).map
        (fun row => row.map (fun q =>
          q / (((input.map fun s => s.2.beta_vector_local.mat).length : ℕ) : ℚ))))) := by
    simp only [npAverage0, hA1, hA2, hA3]
  -- Step C: the widths of the stacked mean/count arrays
  have hC1 : rectWidth? (input.map fun s => s.2.mean_y_local) = some w := by
    rw [hinput]
    simp only [List.map_cons, rectWidth?]
    have hs0 : s0.mean_y_local.length = w := hmean (u0, s0) (by simp [hinput])
    have : (rest.map fun s => s.2.mean_y_local).all
        (fun v => v.length = s0.mean_y_local.length) = true := by
      rw [List.all_eq_true]
      intro v hv
      obtain ⟨s, hs, rfl⟩ := List.mem_map.mp hv
      simp [hmean s (by simp [hinput, hs]), hs0]
    rw [this]
    simp [hs0]
  have hC2 : rectWidth? (input.map fun s => s.2.count_local) = some w := by
    rw [hinput]
    simp only [List.map_cons, rectWidth?]
    have hs0 : s0.count_local.length = w := hcount (u0, s0) (by simp [hinput])
    have : (rest.map fun s => s.2.count_local).all
        (fun v => v.length = s0.count_local.length) = true := by
      rw [List.all_eq_true]
      intro v hv
      obtain ⟨s, hs, rfl⟩ := List.mem_map.mp hv
      simp [hcount s (by simp [hinput, hs]), hs0]
    rw [this]
    simp [hs0]
  -- the width of the averaged beta matrix is p
  have hheadlen : ((msumL (input.map fun s => s.2.beta_vector_local.mat)).headD []).length = p := by
    have hmslen : (msumL (input.map fun s => s.2.beta_vector_local.mat)).length = d := by
      refine msumL_length _ d (by simp [hinput]) ?_
      intro M hM
      have := hBshape M hM
      simp only [mrect, Bool.and_eq_true, decide_eq_true_eq] at this
      exact this.1
    have hget : (msumL (input.map fun s => s.2.beta_vector_local.mat)).headD [] =
        (msumL (input.map fun s => s.2.beta_vector_local.mat)).getD 0 [] := by
      cases msumL (input.map fun s => s.2.beta_vector_local.mat) <;> rfl
    rw [hget, msumL_getD_row _ d (by simp [hinput]) ?rowlens 0]
    case rowlens =>
      intro M hM
      have := hBshape M hM
      simp only [mrect, Bool.and_eq_true, decide_eq_true_eq] at this
      exact this.1
    refine vsumL_length _ p (by simp [hinput]) ?_
    intro v hv
    obtain ⟨M, hM, rfl⟩ := List.mem_map.mp hv
    have hs := hBshape M hM
    simp only [mrect, Bool.and_eq_true, List.all_eq_true, decide_eq_true_eq] at hs
    have hMne : 0 < M.length := hs.1 ▸ hd
    rw [List.getD_eq_getElem _ _ hMne]
    exact hs.2 _ (List.getElem_mem hMne)
  -- assemble
  have hmsne : msumL (input.map fun s => s.2.beta_vector_local.mat) ≠ [] := by
    have hmslen : (msumL (input.map fun s => s.2.beta_vector_local.mat)).length = d := by
      refine msumL_length _ d (by simp [hinput]) ?_
      intro M hM
      have := hBshape M hM
      simp only [mrect, Bool.and_eq_true, decide_eq_true_eq] at this
      exact this.1
    intro hcon
    rw [hcon] at hmslen
    simp at hmslen
    omega
  have hmapped : (((msumL (input.map fun s => s.2.beta_vector_local.mat)).map
      (fun row => row.map (fun q =>
        q / (((input.map fun s => s.2.beta_vector_local.mat).length : ℕ) : ℚ)))).headD []).length = p := by
    rw [headD_map _ _ _ [] hmsne]
    simpa using hheadlen
  rw [hinput] at hB hC1 hC2 hmapped
  rw [hinput]
  simp only [remote_1]
  simp only [hB, hC1, hC2]
  simp only [if_true]
  rw [hmapped]
  simp [List.length_map]


theorem mrect_length {r c : ℕ} {M : Mat} (h : mrect r c M = true) : M.length = r := by
  simp only [mrect, Bool.and_eq_true, decide_eq_true_eq] at h
  exact h.1

theorem mrect_rows {r c : ℕ} {M : Mat} (h : mrect r c M = true) :
    ∀ row ∈ M, row.length = c := by
  simp only [mrect, Bool.and_eq_true, List.all_eq_true, decide_eq_true_eq] at h
  exact h.2

theorem beta2D_shape (input : List (String × Site1)) (d p : ℕ)
    (h : ∀ s ∈ input, beta2D d p s.2.beta_vector_local = true) :
    ∀ B ∈ input.map (fun s => s.2.beta_vector_local.mat), mrect d p B = true := by
  intro B hB
  obtain ⟨s, hs, rfl⟩ := List.mem_map.mp hB
  have := h s hs
  cases hb : s.2.beta_vector_local with
  | d1 v => rw [hb] at this; simp [beta2D] at this
  | d2 m => rw [hb] at this; simpa [beta2D, NDArr.mat] using this

theorem avgB_eq_spec (input : List (String × Site1)) (d p : ℕ) (hne : input ≠ [])
    (hBshape : ∀ B ∈ input.map (fun s => s.2.beta_vector_local.mat), mrect d p B = true) :
    (msumL (input.map fun s => s.2.beta_vector_local.mat)).map
      (fun row => row.map (fun q => q / ((input.length : ℕ) : ℚ))) = specAvgBeta d p input := by
  have hmapne : input.map (fun s => s.2.beta_vector_local.mat) ≠ [] := by
    simpa using hne
  have hrowlen : ∀ M ∈ input.map (fun s => s.2.beta_vector_local.mat), M.length = d :=
    fun M hM => mrect_length (hBshape M hM)
  have hsum_len : (msumL (input.map fun s => s.2.beta_vector_local.mat)).length = d :=
    msumL_length _ d hmapne hrowlen
  have hrow_i : ∀ i, i < d →
      (msumL (input.map fun s => s.2.beta_vector_local.mat)).getD i [] =
        vsumL ((input.map fun s => s.2.beta_vector_local.mat).map (fun M => M.getD i [])) :=
    fun i _ => msumL_getD_row _ d hmapne hrowlen i
  have hrow_entries : ∀ i, i < d →
      ∀ v ∈ (input.map fun s => s.2.beta_vector_local.mat).map (fun M => M.getD i []),
        v.length = p := by
    intro i hi v hv
    obtain ⟨M, hM, rfl⟩ := List.mem_map.mp hv
    have hs := hBshape M hM
    have hlen : i < M.length := by rw [mrect_length hs]; exact hi
    rw [List.getD_eq_getElem _ _ hlen]
    exact mrect_rows hs _ (List.getElem_mem hlen)
  have hrow_len_i : ∀ i, i < d →
      ((msumL (input.map fun s => s.2.beta_vector_local.mat)).getD i []).length = p := by
    intro i hi
    rw [hrow_i i hi]
    exact vsumL_length _ p (by simpa using hne) (hrow_entries i hi)
  apply List.ext_getElem
  · simp [specAvgBeta, hsum_len]
  · intro i h1 h2
    simp only [List.getElem_map]
    have hid : i < d := by simpa [hsum_len] using h1
    simp only [specAvgBeta, List.getElem_map, List.getElem_range]
    have hib : i < (msumL (input.map fun s => s.2.beta_vector_local.mat)).length := by
      rw [hsum_len]; exact hid
    have hrow : (msumL (input.map fun s => s.2.beta_vector_local.mat))[i] =
        vsumL ((input.map fun s => s.2.beta_vector_local.mat).map (fun M => M.getD i [])) := by
      rw [← List.getD_eq_getElem _ ([] : Vec) hib]
      exact hrow_i i hid
    apply List.ext_getElem
    · have := hrow_len_i i hid
      rw [List.getD_eq_getElem _ _ hib] at this
      simp [this]
    · intro j hj1 hj2
      have hjp : j < p := by simpa using hj2
      simp only [List.getElem_map, List.getElem_range]
      have hjb : j < ((msumL (input.map fun s => s.2.beta_vector_local.mat))[i]).length := by
        simpa using hj1
      rw [show (msumL (input.map fun s => s.2.beta_vector_local.mat))[i][j] =
          ((msumL (input.map fun s => s.2.beta_vector_local.mat))[i]).getD j 0 from
        (List.getD_eq_getElem _ _ hjb).symm]
      rw [hrow, vsumL_getD _ p (by simpa using hne) (hrow_entries i hid) j]
      congr 1
      rw [List.map_map, List.map_map]
      rfl


theorem dof_eq_spec (input : List (String × Site1)) (w p : ℕ) (hne : input ≠ [])
    (hcount : ∀ s ∈ input, s.2.count_local.length = w) :
    (vsumL (input.map fun s => s.2.count_local)).map (fun c => c - (p : ℚ)) =
      specDof w p input := by
  have hcl : ∀ v ∈ input.map (fun s => s.2.count_local), v.length = w := by
    intro v hv
    obtain ⟨s, hs, rfl⟩ := List.mem_map.mp hv
    exact hcount s hs
  have hlen : (vsumL (input.map fun s => s.2.count_local)).length = w :=
    vsumL_length _ w (by simpa using hne) hcl
  apply List.ext_getElem
  · simp [specDof, hlen]
  · intro j h1 h2
    have hjw : j < w := by simpa [hlen] using h1
    simp only [List.getElem_map, specDof, List.getElem_range]
    have hjb : j < (vsumL (input.map fun s => s.2.count_local)).length := by
      rw [hlen]; exact hjw
    rw [show (vsumL (input.map fun s => s.2.count_local))[j] =
        (vsumL (input.map fun s => s.2.count_local)).getD j 0 from
      (List.getD_eq_getElem _ _ hjb).symm]
    rw [vsumL_getD _ w (by simpa using hne) hcl j]
    congr 1
    rw [List.map_map]
    rfl

theorem meanY_eq_spec (input : List (String × Site1)) (w : ℕ) (hne : input ≠ [])
    (hmean : ∀ s ∈ input, s.2.mean_y_local.length = w)
    (hcount : ∀ s ∈ input, s.2.count_local.length = w) :
    List.zipWith (· / ·)
      (vsumL (List.zipWith (fun m c => List.zipWith (· * ·) m c)
        (input.map fun s => s.2.mean_y_local) (input.map fun s => s.2.count_local)))
      (vsumL (input.map fun s => s.2.count_local)) = specMeanY w input := by
  have hprods : List.zipWith (fun m c => List.zipWith (· * ·) m c)
      (input.map fun s => s.2.mean_y_local) (input.map fun s => s.2.count_local) =
      input.map (fun s => List.zipWith (· * ·) s.2.mean_y_local s.2.count_local) := by
    rw [List.zipWith_map_left, List.zipWith_map_right, List.zipWith_same]
  rw [hprods]
  have hpl : ∀ v ∈ input.map (fun s => List.zipWith (· * ·) s.2.mean_y_local s.2.count_local),
      v.length = w := by
    intro v hv
    obtain ⟨s, hs, rfl⟩ := List.mem_map.mp hv
    rw [List.length_zipWith, hmean s hs, hcount s hs, Nat.min_self]
  have hcl : ∀ v ∈ input.map (fun s => s.2.count_local), v.length = w := by
    intro v hv
    obtain ⟨s, hs, rfl⟩ := List.mem_map.mp hv
    exact hcount s hs
  have hlp : (vsumL (input.map fun s =>
      List.zipWith (· * ·) s.2.mean_y_local s.2.count_local)).length = w :=
    vsumL_length _ w (by simpa using hne) hpl
  have hlc : (vsumL (input.map fun s => s.2.count_local)).length = w :=
    vsumL_length _ w (by simpa using hne) hcl
  apply List.ext_getElem
  · simp [specMeanY, List.length_zipWith, hlp, hlc]
  · intro j h1 h2
    have hjw : j < w := by
      simpa [List.length_zipWith, hlp, hlc] using h1
    simp only [List.getElem_zipWith, specMeanY, List.getElem_map, List.getElem_range]
    have hjp : j < (vsumL (input.map fun s =>
        List.zipWith (· * ·) s.2.mean_y_local s.2.count_local)).length := by
      rw [hlp]; exact hjw
    have hjc : j < (vsumL (input.map fun s => s.2.count_local)).length := by
      rw [hlc]; exact hjw
    rw [show (vsumL (input.map fun s =>
        List.zipWith (· * ·) s.2.mean_y_local s.2.count_local))[j] =
        (vsumL (input.map fun s =>
          List.zipWith (· * ·) s.2.mean_y_local s.2.count_local)).getD j 0 from
      (List.getD_eq_getElem _ _ hjp).symm]
    rw [show (vsumL (input.map fun s => s.2.count_local))[j] =
        (vsumL (input.map fun s => s.2.count_local)).getD j 0 from
      (List.getD_eq_getElem _ _ hjc).symm]
    rw [vsumL_getD _ w (by simpa using hne) hpl j,
      vsumL_getD _ w (by simpa using hne) hcl j]
    congr 1
    · congr 1
      rw [List.map_map]
      apply List.map_congr_left
      intro s hs
      exact getD_zipWith (· * ·) s.2.mean_y_local s.2.count_local 0 0 0
        ((hmean s hs).trans (hcount s hs).symm) (by ring) j
    · congr 1
      rw [List.map_map]
      rfl


/-- **C1.**  For every Phase-1 payload with `N ≥ 1` sites whose local
coefficient vectors all have the identical 2-D shape `d × p`, the global
coefficient vector returned by `remote_1` — in both the output and the
cache, as `avg_beta_vector` — equals the element-wise unweighted arithmetic
mean of the `N` sites' `beta_vector_local` arrays. -/
theorem C1_avg_beta_unweighted_mean (input : List (String × Site1)) (d p w : ℕ)
    (h : phase1OK input d p w) :
    (remote_1 input).map (fun o => (o.out_avg_beta_vector, o.cache.avg_beta_vector)) =
      some (specAvgBeta d p input, specAvgBeta d p input) := by
  obtain ⟨hne, hd, hbeta, hmean, hcount⟩ := h
  cases input with
  | nil => exact absurd rfl hne
  | cons s rest =>
    obtain ⟨u0, s0⟩ := s
    rw [remote_1_cons_eq u0 s0 rest d p w ⟨hne, hd, hbeta, hmean, hcount⟩]
    simp only [Option.map_some']
    rw [avgB_eq_spec _ d p (by simp) (beta2D_shape _ d p hbeta)]

theorem C1_witness :
    phase1OK ex2 1 2 1 ∧
      (remote_1 ex2).map (fun o => (o.out_avg_beta_vector, o.cache.avg_beta_vector)) =
        some (specAvgBeta 1 2 ex2, specAvgBeta 1 2 ex2) :=
  ⟨by decide, C1_avg_beta_unweighted_mean ex2 1 2 1 (by decide)⟩

/-- **C2.**  For every Phase-1 payload with `N ≥ 1` sites, the global mean
response (`mean_y_global`) returned by `remote_1` equals the count-weighted
average `Σ(mean_y_local_i × count_local_i) / Σ(count_local_i)`; in
particular, for two sites with mean 2.0/count 10 and mean 4.0/count 30 the
result is 3.5. -/
theorem C2_mean_y_count_weighted :
    (∀ (input : List (String × Site1)) (d p w : ℕ), phase1OK input d p w →
      (remote_1 input).map (fun o => (o.out_mean_y_global, o.cache.mean_y_global)) =
        some (specMeanY w input, specMeanY w input)) ∧
    (remote_1 ex2).map (fun o => o.out_mean_y_global) = some [7 / 2] := by
  constructor
  · intro input d p w h
    obtain ⟨hne, hd, hbeta, hmean, hcount⟩ := h
    cases input with
    | nil => exact absurd rfl hne
    | cons s rest =>
      obtain ⟨u0, s0⟩ := s
      rw [remote_1_cons_eq u0 s0 rest d p w ⟨hne, hd, hbeta, hmean, hcount⟩]
      simp only [Option.map_some']
      rw [meanY_eq_spec _ w (by simp) hmean hcount]
  · norm_num [remote_1, npAverage0, ex2, siteA, siteB, mapOpt, NDArr.dim1?, NDArr.dim2?,
      rectWidth?, matsShape?, mrect, vsumL, vadd, msumL, madd]

theorem C2_witness :
    phase1OK ex2 1 2 1 ∧
      (remote_1 ex2).map (fun o => (o.out_mean_y_global, o.cache.mean_y_global)) =
        some (specMeanY 1 ex2, specMeanY 1 ex2) :=
  ⟨by decide, C2_mean_y_count_weighted.1 ex2 1 2 1 (by decide)⟩

/-- **C3.**  For every Phase-1 payload, the global degrees of freedom
(`dof_global`) computed by `remote_1` equals the sum of all sites'
`count_local` minus the number of coefficients `p`; with counts `{10, 30}`
and `p = 2` it equals `38`. -/
theorem C3_dof_global :
    (∀ (input : List (String × Site1)) (d p w : ℕ), phase1OK input d p w →
      (remote_1 input).map (fun o => o.cache.dof_global) = some (specDof w p input)) ∧
    (remote_1 ex2).map (fun o => o.cache.dof_global) = some [38] := by
  constructor
  · intro input d p w h
    obtain ⟨hne, hd, hbeta, hmean, hcount⟩ := h
    cases input with
    | nil => exact absurd rfl hne
    | cons s rest =>
      obtain ⟨u0, s0⟩ := s
      rw [remote_1_cons_eq u0 s0 rest d p w ⟨hne, hd, hbeta, hmean, hcount⟩]
      simp only [Option.map_some']
      rw [dof_eq_spec _ w p (by simp) hcount]
  · norm_num [remote_1, npAverage0, ex2, siteA, siteB, mapOpt, NDArr.dim1?, NDArr.dim2?,
      rectWidth?, matsShape?, mrect, vsumL, vadd, msumL, madd]

theorem C3_witness :
    phase1OK ex2 1 2 1 ∧
      (remote_1 ex2).map (fun o => o.cache.dof_global) = some (specDof 1 2 ex2) :=
  ⟨by decide, C3_dof_global.1 ex2 1 2 1 (by decide)⟩


/-- **C7.**  For every incoming payload, the dispatcher routes to `remote_1`
if the tag `"local_1"` appears anywhere among the payload's
`computation_phase` tags (including mixed-tag payloads, since `"local_1"`
is checked first), otherwise routes to `remote_2` if `"local_2"` appears,
and otherwise fails fatally (`ValueError`, modelled as `none`) and emits no
output. -/
theorem C7_dispatcher_routing (phase_key : List String) :
    ("local_1" ∈ phase_key → dispatch phase_key = some Route.phase1) ∧
    ("local_1" ∉ phase_key → "local_2" ∈ phase_key →
      dispatch phase_key = some Route.phase2) ∧
    ("local_1" ∉ phase_key → "local_2" ∉ phase_key → dispatch phase_key = none) := by
  refine ⟨fun h1 => ?_, fun h1 h2 => ?_, fun h1 h2 => ?_⟩
  · simp [dispatch, h1]
  · simp [dispatch, h1, h2]
  · simp [dispatch, h1, h2]

theorem C7_witness :
    dispatch ["local_2", "local_1"] = some Route.phase1 ∧
    dispatch ["local_2"] = some Route.phase2 ∧
    dispatch ["bogus"] = none :=
  ⟨(C7_dispatcher_routing _).1 (by simp),
   (C7_dispatcher_routing _).2.1 (by simp) (by simp),
   (C7_dispatcher_routing _).2.2 (by simp) (by simp)⟩

theorem npAverage0_d2_inv (bs : List NDArr) (m : Mat)
    (h : npAverage0 bs = some (.d2 m)) : (mapOpt NDArr.dim2? bs).isSome = true := by
  unfold npAverage0 at h
  cases h1 : mapOpt NDArr.dim1? bs with
  | some vs =>
    cases h2 : rectWidth? vs with
    | some w => simp only [h1, h2] at h; simp at h
    | none => simp only [h1, h2] at h; simp at h
  | none =>
    cases h2 : mapOpt NDArr.dim2? bs with
    | some ms => simp
    | none => simp only [h1, h2] at h; simp at h

theorem npAverage0_all_d1 (bs : List NDArr) (hall : ∀ b ∈ bs, beta1D b = true)
    (x : NDArr) (hx : npAverage0 bs = some x) : ∃ v, x = .d1 v := by
  unfold npAverage0 at hx
  cases h1 : mapOpt NDArr.dim1? bs with
  | some vs =>
    cases h2 : rectWidth? vs with
    | some w =>
      simp only [h1, h2, Option.some.injEq] at hx
      exact ⟨_, hx.symm⟩
    | none => simp only [h1, h2] at hx; simp at hx
  | none =>
    cases bs with
    | nil => simp [mapOpt] at h1
    | cons b bs' =>
      have hb : NDArr.dim2? b = none := by
        have := hall b (by simp)
        cases b with
        | d1 v => rfl
        | d2 m => simp [beta1D] at this
      simp only [h1, mapOpt_cons_of_none _ _ _ hb] at hx
      simp at hx

/-- **C10.**  `remote_1` returns successfully only when every site's
`beta_vector_local` is two-dimensional; for every Phase-1 payload in which
the sites' `beta_vector_local` are one-dimensional vectors, the
degrees-of-freedom computation's access `avg_beta_vector.shape[1]` does not
exist (IndexError on a 1-D array), so `remote_1` fails (`none`) instead of
producing output. -/
theorem C10_beta_must_be_2d :
    (∀ input : List (String × Site1), (remote_1 input).isSome = true →
      ∀ s ∈ input, s.2.beta_vector_local.dim2?.isSome = true) ∧
    (∀ input : List (String × Site1),
      (∀ s ∈ input, beta1D s.2.beta_vector_local = true) → remote_1 input = none) := by
  constructor
  · intro input h s hs
    cases input with
    | nil => simp at hs
    | cons s0p rest =>
      obtain ⟨u0, s0⟩ := s0p
      unfold remote_1 at h
      cases havg : npAverage0 (((u0, s0) :: rest).map (fun s => s.2.beta_vector_local)) with
      | none => simp only [havg] at h; simp at h
      | some avgND =>
        cases avgND with
        | d1 v =>
          exfalso
          cases hm : rectWidth? (((u0, s0) :: rest).map (fun s => s.2.mean_y_local)) with
          | none => simp only [havg, hm] at h; simp at h
          | some dm =>
            cases hc : rectWidth? (((u0, s0) :: rest).map (fun s => s.2.count_local)) with
            | none => simp only [havg, hm, hc] at h; simp at h
            | some dc => simp only [havg, hm, hc] at h; simp [ite_self] at h
        | d2 m =>
          have hsome := npAverage0_d2_inv _ m havg
          exact mapOpt_isSome_mem _ _ hsome s.2.beta_vector_local
            (List.mem_map.mpr ⟨s, hs, rfl⟩)
  · intro input hall
    cases input with
    | nil => rfl
    | cons s0p rest =>
      obtain ⟨u0, s0⟩ := s0p
      unfold remote_1
      cases havg : npAverage0 (((u0, s0) :: rest).map (fun s => s.2.beta_vector_local)) with
      | none => simp only [havg]
      | some avgND =>
        have hd1 : ∀ b ∈ ((u0, s0) :: rest).map (fun s => s.2.beta_vector_local),
            beta1D b = true := by
          intro b hb
          obtain ⟨s, hs, rfl⟩ := List.mem_map.mp hb
          exact hall s hs
        obtain ⟨v, rfl⟩ := npAverage0_all_d1 _ hd1 avgND havg
        cases hm : rectWidth? (((u0, s0) :: rest).map (fun s => s.2.mean_y_local)) with
        | none => simp only [havg, hm]
        | some dm =>
          cases hc : rectWidth? (((u0, s0) :: rest).map (fun s => s.2.count_local)) with
          | none => simp only [havg, hm, hc]
          | some dc => simp only [havg, hm, hc, ite_self]

theorem C10_witness :
    (remote_1 ex2).isSome = true ∧
    (∀ s ∈ ex2, s.2.beta_vector_local.dim2?.isSome = true) ∧
    (∀ s ∈ ex1d, beta1D s.2.beta_vector_local = true) ∧
    remote_1 ex1d = none :=
  ⟨by decide, C10_beta_must_be_2d.1 ex2 (by decide), by decide,
   C10_beta_must_be_2d.2 ex1d (by decide)⟩


theorem vec_sum_eq_spec (f : String × Site2 → Vec) (input : List (String × Site2)) (d : ℕ)
    (hne : input ≠ []) (hlen : ∀ s ∈ input, (f s).length = d) :
    vsumL (input.map f) =
      (List.range d).map fun j => (input.map fun s => (f s).getD j 0).sum := by
  have hcl : ∀ v ∈ input.map f, v.length = d := by
    intro v hv
    obtain ⟨s, hs, rfl⟩ := List.mem_map.mp hv
    exact hlen s hs
  have hl : (vsumL (input.map f)).length = d := vsumL_length _ d (by simpa using hne) hcl
  apply List.ext_getElem
  · simp [hl]
  · intro j h1 h2
    simp only [List.getElem_map, List.getElem_range]
    have hjb : j < (vsumL (input.map f)).length := h1
    rw [show (vsumL (input.map f))[j] = (vsumL (input.map f)).getD j 0 from
      (List.getD_eq_getElem _ _ hjb).symm]
    rw [vsumL_getD _ d (by simpa using hne) hcl j]
    congr 1
    rw [List.map_map]
    rfl

theorem varXGlobal_eq_spec (input : List (String × Site2)) (p : ℕ) (hne : input ≠ [])
    (hshape : ∀ s ∈ input, mrect p p s.2.varX_matrix_local = true) :
    varXGlobal input = specVarX p input := by
  have hmapne : input.map (fun s => s.2.varX_matrix_local) ≠ [] := by simpa using hne
  have hrowlen : ∀ M ∈ input.map (fun s => s.2.varX_matrix_local), M.length = p := by
    intro M hM
    obtain ⟨s, hs, rfl⟩ := List.mem_map.mp hM
    exact mrect_length (hshape s hs)
  have hsum_len : (varXGlobal input).length = p := msumL_length _ p hmapne hrowlen
  have hrow_entries : ∀ i, i < p →
      ∀ v ∈ (input.map fun s => s.2.varX_matrix_local).map (fun M => M.getD i []),
        v.length = p := by
    intro i hi v hv
    obtain ⟨M, hM, rfl⟩ := List.mem_map.mp hv
    obtain ⟨s, hs, rfl⟩ := List.mem_map.mp hM
    have hrect := hshape s hs
    have hlen : i < s.2.varX_matrix_local.length := by rw [mrect_length hrect]; exact hi
    rw [List.getD_eq_getElem _ _ hlen]
    exact mrect_rows hrect _ (List.getElem_mem hlen)
  have hrow_i : ∀ i, i < p → (varXGlobal input).getD i [] =
      vsumL ((input.map fun s => s.2.varX_matrix_local).map (fun M => M.getD i [])) :=
    fun i _ => msumL_getD_row _ p hmapne hrowlen i
  have hrow_len_i : ∀ i, i < p → ((varXGlobal input).getD i []).length = p := by
    intro i hi
    rw [hrow_i i hi]
    exact vsumL_length _ p (by simpa using hne) (hrow_entries i hi)
  apply List.ext_getElem
  · simp [specVarX, hsum_len]
  · intro i h1 h2
    have hip : i < p := by simpa [hsum_len] using h1
    simp only [specVarX, List.getElem_map, List.getElem_range]
    have hib : i < (varXGlobal input).length := by rw [hsum_len]; exact hip
    have hrow : (varXGlobal input)[i] =
        vsumL ((input.map fun s => s.2.varX_matrix_local).map (fun M => M.getD i [])) := by
      rw [← List.getD_eq_getElem _ ([] : Vec) hib]
      exact hrow_i i hip
    apply List.ext_getElem
    · have := hrow_len_i i hip
      rw [List.getD_eq_getElem _ _ hib] at this
      simp [this]
    · intro j hj1 hj2
      have hjp : j < p := by simpa using hj2
      simp only [List.getElem_map, List.getElem_range]
      have hjb : j < ((varXGlobal input)[i]).length := hj1
      rw [show (varXGlobal input)[i][j] = ((varXGlobal input)[i]).getD j 0 from
        (List.getD_eq_getElem _ _ hjb).symm]
      rw [hrow, vsumL_getD _ p (by simpa using hne) (hrow_entries i hip) j]
      congr 1
      rw [List.map_map, List.map_map]
      rfl

/-- **C4.**  For every Phase-2 payload over `N ≥ 1` sites (with the common
shapes under which numpy stacking succeeds), `remote_2`'s global SSE
(`sseGlobal`, feeding `MSE`), global SST (`sstGlobal`, feeding the discarded
R²), and global covariate cross-product matrix (`varXGlobal`, the matrix
that is inverted) are each the element-wise sum across sites of the
corresponding local quantity. -/
theorem C4_global_sums (input : List (String × Site2)) (d p : ℕ)
    (hne : input ≠ [])
    (hsse : ∀ s ∈ input, s.2.SSE_local.length = d)
    (hsst : ∀ s ∈ input, s.2.SST_local.length = d)
    (hvarx : ∀ s ∈ input, mrect p p s.2.varX_matrix_local = true) :
    sseGlobal input = specSSE d input ∧ sstGlobal input = specSST d input ∧
      varXGlobal input = specVarX p input := by
  refine ⟨?_, ?_, varXGlobal_eq_spec input p hne hvarx⟩
  · exact vec_sum_eq_spec (fun s => s.2.SSE_local) input d hne hsse
  · exact vec_sum_eq_spec (fun s => s.2.SST_local) input d hne hsst

theorem C4_witness :
    (ex2p ≠ [] ∧ (∀ s ∈ ex2p, s.2.SSE_local.length = 1) ∧
      (∀ s ∈ ex2p, s.2.SST_local.length = 1) ∧
      (∀ s ∈ ex2p, mrect 1 1 s.2.varX_matrix_local = true)) ∧
    (sseGlobal ex2p = specSSE 1 ex2p ∧ sstGlobal ex2p = specSST 1 ex2p ∧
      varXGlobal ex2p = specVarX 1 ex2p) :=
  ⟨⟨by decide, by decide, by decide, by decide⟩,
   C4_global_sums ex2p 1 1 (by decide) (by decide) (by decide) (by decide)⟩


theorem remote_2_some_inv (tToP : List ℝ → ℚ → List ℝ) (png : String) (args : Args2)
    (o : Remote2Out) (h : remote_2 tToP png args = some o) :
    args.input.isEmpty = false ∧
    ∃ de dt, rectWidth? (args.input.map fun s => s.2.SSE_local) = some de ∧
      rectWidth? (args.input.map fun s => s.2.SST_local) = some dt ∧
      (matsShape? (args.input.map fun s => s.2.varX_matrix_local)).isSome = true ∧
      bcompat de dt ∧
      bcompat de args.cache.dof_global.length ∧
      ∃ tsps, mapOpt (dimStats tToP args.cache.avg_beta_vector args.cache.dof_global
          (bdiv (sseGlobal args.input) args.cache.dof_global)
          (varXGlobal args.input))
          (List.range (bdiv (sseGlobal args.input)
            args.cache.dof_global).length) = some tsps ∧
        o = { global_stats := png
              local_stats := (args.input.map Prod.fst).zip args.cache.local_stats_dict
              ts_global := tsps.map Prod.fst
              ps_global := tsps.map Prod.snd
              success := true } := by
  unfold remote_2 at h
  by_cases hemp : args.input.isEmpty
  · rw [if_pos hemp] at h
    simp at h
  · rw [if_neg hemp] at h
    cases h1 : rectWidth? (args.input.map fun s => s.2.SSE_local) with
    | none => simp only [h1] at h; simp at h
    | some de =>
      cases h2 : rectWidth? (args.input.map fun s => s.2.SST_local) with
      | none => simp only [h1, h2] at h; simp at h
      | some dt =>
        cases h3 : matsShape? (args.input.map fun s => s.2.varX_matrix_local) with
        | none => simp only [h1, h2, h3] at h; simp at h
        | some rc =>
          simp only [h1, h2, h3] at h
          by_cases hdedt : bcompat de dt
          case neg => rw [if_neg hdedt] at h; simp at h
          rw [if_pos hdedt] at h
          by_cases hded : bcompat de args.cache.dof_global.length
          case neg => rw [if_neg hded] at h; simp at h
          rw [if_pos hded] at h
          cases hmap : mapOpt (dimStats tToP args.cache.avg_beta_vector args.cache.dof_global
              (bdiv (sseGlobal args.input) args.cache.dof_global)
              (varXGlobal args.input))
              (List.range (bdiv (sseGlobal args.input)
                args.cache.dof_global).length) with
          | none => simp only [hmap] at h; simp at h
          | some tsps =>
            simp only [hmap, Option.some.injEq] at h
            refine ⟨by simpa using hemp, de, dt, rfl, rfl, rfl, hdedt, hded, tsps, rfl, h.symm⟩


theorem rectWidth?_forall (vs : List Vec) (w : ℕ) (h : rectWidth? vs = some w) :
    ∀ v ∈ vs, v.length = w := by
  cases vs with
  | nil => simp [rectWidth?] at h
  | cons v rest =>
    simp only [rectWidth?] at h
    by_cases hall : rest.all (fun u => u.length = v.length) = true
    · rw [if_pos hall] at h
      simp only [Option.some.injEq] at h
      intro u hu
      rcases List.mem_cons.mp hu with rfl | hu'
      · exact h
      · rw [List.all_eq_true] at hall
        simpa [h] using hall u hu'
    · rw [if_neg hall] at h
      simp at h

theorem dimStats_none_of_det0 (tToP : List ℝ → ℚ → List ℝ) (beta : Mat)
    (dof MSE : Vec) (G : Mat) (i : ℕ) (hdet : detL G = 0) :
    dimStats tToP beta dof MSE G i = none := by
  unfold dimStats
  simp [hdet, ite_self]

/-- **C8 (counterexample).**  The claim fails as stated: in `exSingEmpty`
the summed cross-product matrix is singular (determinant zero) and the
cached `dof_global` is the nonempty `[38]`, yet `remote_2` emits an output
with `success = True`.  Every site's `SSE_local` is empty, so NumPy
broadcasts the `(0,)`-shaped `SSE_global` against the `(1,)`-shaped
`dof_global`: `MSE` is empty, the `for i in range(len(MSE))` loop body
never runs, and `sp.linalg.inv` is never applied to the singular matrix. -/
theorem C8_counterexample :
    detL (varXGlobal exSingEmpty.input) = 0 ∧ exSingEmpty.cache.dof_global ≠ [] ∧
    (remote_2 (fun ts _ => ts) "png" exSingEmpty).map
        (fun o => (o.ts_global, o.ps_global, o.success)) = some ([], [], true) := by
  refine ⟨?_, by decide, ?_⟩
  · norm_num [detL, varXGlobal, msumL, madd, vadd, exSingEmpty, site2E,
      List.range_succ, dropNth]
  · norm_num [remote_2, exSingEmpty, site2E, cacheX, rectWidth?, matsShape?, mrect,
      bcompat, bdiv, sseGlobal, sstGlobal, varXGlobal, vsumL, vadd, msumL, madd, mapOpt]

/-- **C8 (amended).**  For every Phase-2 input whose summed global
cross-product matrix is singular (zero determinant — e.g., a covariate
column that is all zeros at every site) and which actually processes at
least one output dimension — every site's `SSE_local` nonempty and the
cached `dof_global` nonempty, so `MSE` is nonempty and the per-dimension
loop runs — `remote_2` fails fatally (`sp.linalg.inv` raises `LinAlgError`,
modelled as `none`) and emits no output: in the exact-arithmetic model no
result, in particular none carrying `NaN`/`inf` standard errors, is ever
produced.  The nonemptiness proviso is necessary: with all-empty
`SSE_local` payloads, `MSE` broadcasts to the empty array, the loop is
skipped, and an output is emitted despite the singular matrix. -/
theorem C8_singular_varX_fatal (tToP : List ℝ → ℚ → List ℝ) (png : String) (args : Args2)
    (hdet : detL (varXGlobal args.input) = 0)
    (hsse : ∀ s ∈ args.input, s.2.SSE_local ≠ [])
    (hdof : args.cache.dof_global ≠ []) :
    remote_2 tToP png args = none := by
  cases hs : remote_2 tToP png args with
  | none => rfl
  | some o =>
    exfalso
    obtain ⟨hemp, de, dt, h1, h2, h3, hc1, hc2, tsps, hmap, ho⟩ :=
      remote_2_some_inv _ _ _ _ hs
    have hne : args.input ≠ [] := fun hcon => by simp [hcon] at hemp
    have hsselen : (sseGlobal args.input).length = de := by
      refine vsumL_length _ de (by simpa using hne) ?_
      intro v hv
      obtain ⟨t, ht, rfl⟩ := List.mem_map.mp hv
      exact rectWidth?_forall _ de h1 _ (List.mem_map.mpr ⟨t, ht, rfl⟩)
    obtain ⟨s0, hs0⟩ : ∃ s, s ∈ args.input := by
      cases hin : args.input with
      | nil => exact absurd hin hne
      | cons a l => exact ⟨a, List.mem_cons_self a l⟩
    have hde : 0 < de := by
      have hlen0 : s0.2.SSE_local.length = de :=
        rectWidth?_forall _ de h1 _ (List.mem_map.mpr ⟨s0, hs0, rfl⟩)
      rw [← hlen0]
      exact List.length_pos.mpr (hsse s0 hs0)
    have hdoflen : 0 < args.cache.dof_global.length := List.length_pos.mpr hdof
    have hlen : 0 < (bdiv (sseGlobal args.input) args.cache.dof_global).length := by
      unfold bdiv
      by_cases heq : (sseGlobal args.input).length = args.cache.dof_global.length
      · rw [if_pos heq, List.length_zipWith, heq, Nat.min_self]
        exact hdoflen
      · rw [if_neg heq]
        by_cases hone : (sseGlobal args.input).length = 1
        · rw [if_pos hone, List.length_map]
          exact hdoflen
        · have hb1 : args.cache.dof_global.length = 1 := by
            rcases hc2 with hcc | hcc | hcc
            · exact absurd (hsselen.trans hcc) heq
            · exact absurd (hsselen.trans hcc) hone
            · exact hcc
          rw [if_neg hone, if_pos hb1, List.length_map, hsselen]
          exact hde
    have hms : (mapOpt (dimStats tToP args.cache.avg_beta_vector args.cache.dof_global
        (bdiv (sseGlobal args.input) args.cache.dof_global)
        (varXGlobal args.input))
        (List.range (bdiv (sseGlobal args.input)
          args.cache.dof_global).length)).isSome = true := by
      rw [hmap]
      rfl
    have h0 := mapOpt_isSome_mem _ _ hms 0 (List.mem_range.mpr hlen)
    rw [dimStats_none_of_det0 _ _ _ _ _ 0 hdet] at h0
    simp at h0

theorem C8_witness :
    (detL (varXGlobal exSing.input) = 0 ∧ (∀ s ∈ exSing.input, s.2.SSE_local ≠ []) ∧
      exSing.cache.dof_global ≠ []) ∧
      remote_2 (fun ts _ => ts) "png" exSing = none :=
  ⟨⟨by norm_num [detL, varXGlobal, msumL, madd, vadd, exSing, site2Z, List.range_succ, dropNth],
    by decide, by decide⟩,
   C8_singular_varX_fatal (fun ts _ => ts) "png" exSing
     (by norm_num [detL, varXGlobal, msumL, madd, vadd, exSing, site2Z, List.range_succ, dropNth])
     (by decide) (by decide)⟩


theorem getD_dropNth {α : Type _} (l : List α) (j k : ℕ) (d : α) :
    (dropNth j l).getD k d = if k < j then l.getD k d else l.getD (k + 1) d := by
  induction l generalizing j k with
  | nil => simp [dropNth]
  | cons x xs ih =>
    cases j with
    | zero => simp [dropNth]
    | succ j' =>
      cases k with
      | zero => simp [dropNth]
      | succ k' =>
        simp only [dropNth, List.getD_cons_succ]
        rw [ih j' k']
        by_cases hk : k' < j'
        · rw [if_pos hk, if_pos (by omega)]
        · rw [if_neg hk, if_neg (by omega)]

theorem length_dropNth {α : Type _} (l : List α) (j : ℕ) (h : j < l.length) :
    (dropNth j l).length = l.length - 1 := by
  induction l generalizing j with
  | nil => simp at h
  | cons x xs ih =>
    cases j with
    | zero => simp [dropNth]
    | succ j' =>
      simp only [dropNth, List.length_cons]
      rw [ih j' (by simpa using h)]
      simp at h
      omega

theorem sum_map_range (f : ℕ → ℚ) (n : ℕ) :
    ((List.range n).map f).sum = ∑ j ∈ Finset.range n, f j := by
  induction n with
  | zero => simp
  | succ m ih => simp [List.range_succ, Finset.sum_range_succ, ih]

/-- The Laplace expansion `detL` agrees with Mathlib's determinant on
square matrices. -/
theorem detL_eq_det (n : ℕ) (M : Mat) (hlen : M.length = n)
    (hrows : ∀ r ∈ M, r.length = n) : detL M = (toMat n M).det := by
  induction n generalizing M with
  | zero =>
    obtain rfl : M = [] := List.length_eq_zero.mp hlen
    simp [detL, Matrix.det_fin_zero]
  | succ m ih =>
    cases M with
    | nil => simp at hlen
    | cons row rest =>
      have hrowlen : row.length = m + 1 := hrows row (by simp)
      have hrestlen : rest.length = m := by simpa using hlen
      rw [detL, Matrix.det_succ_row_zero]
      rw [hrowlen, sum_map_range, ← Fin.sum_univ_eq_sum_range]
      apply Finset.sum_congr rfl
      intro j _
      have hA0j : toMat (m + 1) (row :: rest) 0 j = row.getD j 0 := by
        simp [toMat]
      rw [hA0j]
      congr 1
      have hsub : (toMat (m + 1) (row :: rest)).submatrix Fin.succ j.succAbove =
          toMat m (rest.map (dropNth (j : ℕ))) := by
        funext a b
        simp only [Matrix.submatrix_apply, toMat, Matrix.of_apply]
        have hmap : (rest.map (dropNth (j : ℕ))).getD a [] =
            dropNth (j : ℕ) (rest.getD a []) := by
          by_cases ha : (a : ℕ) < rest.length
          · rw [List.getD_eq_getElem _ _ (by simpa using ha),
              List.getD_eq_getElem _ _ ha, List.getElem_map]
          · rw [List.getD_eq_default _ _ (by simpa using ha),
              List.getD_eq_default _ _ (by omega)]
            simp [dropNth]
        have hcons : ((row :: rest).getD ((a.succ : Fin (m + 1)) : ℕ) []) =
            rest.getD (a : ℕ) [] := by
          rw [Fin.val_succ, List.getD_cons_succ]
        rw [hcons, hmap, getD_dropNth]
        have hcoe : ((j.succAbove b : Fin (m + 1)) : ℕ) =
            if (b : ℕ) < (j : ℕ) then (b : ℕ) else (b : ℕ) + 1 := by
          rw [Fin.succAbove]
          by_cases hbj : b.castSucc < j
          · rw [if_pos hbj, if_pos]
            · rfl
            · simpa [Fin.lt_def] using hbj
          · rw [if_neg hbj, if_neg]
            · rfl
            · simpa [Fin.lt_def] using hbj
        rw [hcoe]
        by_cases hb : (b : ℕ) < (j : ℕ)
        · rw [if_pos hb, if_pos hb]
        · rw [if_neg hb, if_neg hb]
      rw [hsub]
      refine ih (rest.map (dropNth (j : ℕ))) (by simp [hrestlen]) ?_
      intro r hr
      obtain ⟨r0, hr0, rfl⟩ := List.mem_map.mp hr
      have := hrows r0 (by simp [hr0])
      rw [length_dropNth r0 _ (by rw [this]; exact j.isLt), this]
      omega


theorem getD_map_finRange {p : ℕ} {β : Type _} (f : Fin p → β) (d : β) (i : Fin p) :
    (((List.finRange p).map f).getD (i : ℕ) d) = f i := by
  have hi : (i : ℕ) < ((List.finRange p).map f).length := by simpa using i.isLt
  rw [List.getD_eq_getElem _ _ hi, List.getElem_map]
  congr
  simp [List.getElem_finRange]

theorem toMat_matInvL (p : ℕ) (G : Mat) :
    toMat p (matInvL p G) = (toMat p G)⁻¹ := by
  funext i j
  show ((matInvL p G).getD (i : ℕ) []).getD (j : ℕ) 0 = (toMat p G)⁻¹ i j
  rw [matInvL, getD_map_finRange, getD_map_finRange]

theorem rectWidth?_of_forall (vs : List Vec) (w : ℕ) (hne : vs ≠ [])
    (h : ∀ v ∈ vs, v.length = w) : rectWidth? vs = some w := by
  cases vs with
  | nil => exact absurd rfl hne
  | cons v rest =>
    simp only [rectWidth?]
    rw [if_pos]
    · rw [h v (by simp)]
    · rw [List.all_eq_true]
      intro u hu
      simp [h u (by simp [hu]), h v (by simp)]

theorem matsShape?_of_forall (ms : List Mat) (p : ℕ) (hne : ms ≠ []) (hp : 0 < p)
    (h : ∀ M ∈ ms, mrect p p M = true) : matsShape? ms = some (p, p) := by
  cases ms with
  | nil => exact absurd rfl hne
  | cons M rest =>
    have hM := h M (by simp)
    have hMlen : M.length = p := mrect_length hM
    have hMhead : (M.headD []).length = p := by
      cases hMc : M with
      | nil => rw [hMc] at hMlen; simp at hMlen; omega
      | cons r rs => exact mrect_rows hM r (by simp [hMc])
    simp only [matsShape?]
    rw [hMlen, hMhead, if_pos]
    rw [Bool.and_eq_true]
    constructor
    · exact hM
    · rw [List.all_eq_true]
      intro K hK
      exact h K (by simp [hK])

theorem varXGlobal_shape (input : List (String × Site2)) (p : ℕ) (hne : input ≠ [])
    (hshape : ∀ s ∈ input, mrect p p s.2.varX_matrix_local = true) :
    mrect p p (varXGlobal input) = true := by
  have hmapne : input.map (fun s => s.2.varX_matrix_local) ≠ [] := by simpa using hne
  have hrowlen : ∀ M ∈ input.map (fun s => s.2.varX_matrix_local), M.length = p := by
    intro M hM
    obtain ⟨s, hs, rfl⟩ := List.mem_map.mp hM
    exact mrect_length (hshape s hs)
  have hlen : (varXGlobal input).length = p := msumL_length _ p hmapne hrowlen
  rw [mrect, Bool.and_eq_true]
  refine ⟨by simp [hlen], ?_⟩
  rw [List.all_eq_true]
  intro row hrow
  simp only [decide_eq_true_eq]
  obtain ⟨k, hk, rfl⟩ := List.mem_iff_getElem.mp hrow
  rw [show (varXGlobal input)[k] = (varXGlobal input).getD k [] from
    (List.getD_eq_getElem _ _ hk).symm,
    show varXGlobal input = msumL (input.map fun s => s.2.varX_matrix_local) from rfl,
    msumL_getD_row _ p hmapne hrowlen k]
  refine vsumL_length _ p (by simpa using hne) ?_
  intro v hv
  obtain ⟨M, hM, rfl⟩ := List.mem_map.mp hv
  obtain ⟨s, hs, rfl⟩ := List.mem_map.mp hM
  have hrect := hshape s hs
  have hkp : k < p := by rw [hlen] at hk; exact hk
  have hkM : k < s.2.varX_matrix_local.length := by rw [mrect_length hrect]; exact hkp
  rw [List.getD_eq_getElem _ _ hkM]
  exact mrect_rows hrect _ (List.getElem_mem hkM)


theorem dimStats_eq_some (tToP : List ℝ → ℚ → List ℝ) (beta : Mat) (dof MSE : Vec)
    (G : Mat) (p i : ℕ) (hG : mrect p p G = true) (hp : 0 < p) (hdet : detL G ≠ 0)
    (hin : i < beta.length) (hrow : (beta.getD i []).length = p) :
    dimStats tToP beta dof MSE G i =
      some (List.zipWith (fun (b : ℚ) (s : ℝ) => (b : ℝ) / s) (beta.getD i [])
              ((diagL (scaleM (MSE.getD i 0) (matInvL G.length G))).map
                (fun (q : ℚ) => Real.sqrt (q : ℝ))),
            tToP (List.zipWith (fun (b : ℚ) (s : ℝ) => (b : ℝ) / s) (beta.getD i [])
              ((diagL (scaleM (MSE.getD i 0) (matInvL G.length G))).map
                (fun (q : ℚ) => Real.sqrt (q : ℝ)))) (dof.getD i 0)) := by
  have hGlen : G.length = p := mrect_length hG
  unfold dimStats
  rw [if_pos ?guard]
  case guard =>
    constructor
    · rw [hGlen]; exact hp
    · rw [List.all_eq_true]
      intro row hr
      simp only [decide_eq_true_eq, hGlen]
      exact mrect_rows hG row hr
  rw [if_neg hdet]
  have hElem : beta[i]? = some (beta.getD i []) := by
    rw [List.getElem?_eq_getElem hin, List.getD_eq_getElem _ _ hin]
  simp only [hElem]
  rw [if_pos (hrow.trans hGlen.symm)]


theorem remote_2_eq_of_ok (tToP : List ℝ → ℚ → List ℝ) (png : String) (args : Args2)
    (d p : ℕ) (h : phase2OK args d p) :
    remote_2 tToP png args =
      some { global_stats := png
             local_stats := (args.input.map Prod.fst).zip args.cache.local_stats_dict
             ts_global := (List.range d).map (fun i =>
               List.zipWith (fun (b : ℚ) (s : ℝ) => (b : ℝ) / s) (args.cache.avg_beta_vector.getD i [])
                 ((diagL (scaleM ((bdiv (sseGlobal args.input)
                     args.cache.dof_global).getD i 0)
                   (matInvL (varXGlobal args.input).length (varXGlobal args.input)))).map
                   (fun (q : ℚ) => Real.sqrt (q : ℝ))))
             ps_global := (List.range d).map (fun i =>
               tToP (List.zipWith (fun (b : ℚ) (s : ℝ) => (b : ℝ) / s)
                   (args.cache.avg_beta_vector.getD i [])
                 ((diagL (scaleM ((bdiv (sseGlobal args.input)
                     args.cache.dof_global).getD i 0)
                   (matInvL (varXGlobal args.input).length (varXGlobal args.input)))).map
                   (fun (q : ℚ) => Real.sqrt (q : ℝ))))
                 (args.cache.dof_global.getD i 0))
             success := true } := by
  obtain ⟨hne, hd, hp, hsse, hsst, hvarx, hdof, hble, hrows, hdet⟩ := h
  have hGshape : mrect p p (varXGlobal args.input) = true :=
    varXGlobal_shape args.input p hne hvarx
  have hsselen : (sseGlobal args.input).length = d := by
    refine vsumL_length _ d (by simpa using hne) ?_
    intro v hv
    obtain ⟨t, ht, rfl⟩ := List.mem_map.mp hv
    exact hsse t ht
  have hbz : bdiv (sseGlobal args.input) args.cache.dof_global =
      List.zipWith (· / ·) (sseGlobal args.input) args.cache.dof_global := by
    unfold bdiv
    rw [if_pos (by rw [hsselen, hdof])]
  have hMSElen : (bdiv (sseGlobal args.input)
      args.cache.dof_global).length = d := by
    rw [hbz, List.length_zipWith, hsselen, hdof, Nat.min_self]
  have hw1 : rectWidth? (args.input.map fun s => s.2.SSE_local) = some d := by
    refine rectWidth?_of_forall _ d (by simpa using hne) ?_
    intro v hv
    obtain ⟨t, ht, rfl⟩ := List.mem_map.mp hv
    exact hsse t ht
  have hw2 : rectWidth? (args.input.map fun s => s.2.SST_local) = some d := by
    refine rectWidth?_of_forall _ d (by simpa using hne) ?_
    intro v hv
    obtain ⟨t, ht, rfl⟩ := List.mem_map.mp hv
    exact hsst t ht
  have hw3 : matsShape? (args.input.map fun s => s.2.varX_matrix_local) = some (p, p) := by
    refine matsShape?_of_forall _ p (by simpa using hne) hp ?_
    intro M hM
    obtain ⟨t, ht, rfl⟩ := List.mem_map.mp hM
    exact hvarx t ht
  have hdim : ∀ i ∈ List.range d,
      dimStats tToP args.cache.avg_beta_vector args.cache.dof_global
        (bdiv (sseGlobal args.input) args.cache.dof_global)
        (varXGlobal args.input) i =
      some ((fun i => (List.zipWith (fun (b : ℚ) (s : ℝ) => (b : ℝ) / s)
          (args.cache.avg_beta_vector.getD i [])
          ((diagL (scaleM ((bdiv (sseGlobal args.input)
              args.cache.dof_global).getD i 0)
            (matInvL (varXGlobal args.input).length (varXGlobal args.input)))).map
            (fun (q : ℚ) => Real.sqrt (q : ℝ))),
        tToP (List.zipWith (fun (b : ℚ) (s : ℝ) => (b : ℝ) / s)
            (args.cache.avg_beta_vector.getD i [])
          ((diagL (scaleM ((bdiv (sseGlobal args.input)
              args.cache.dof_global).getD i 0)
            (matInvL (varXGlobal args.input).length (varXGlobal args.input)))).map
            (fun (q : ℚ) => Real.sqrt (q : ℝ))))
          (args.cache.dof_global.getD i 0))) i) := by
    intro i hi
    have hid : i < d := List.mem_range.mp hi
    have hib : i < args.cache.avg_beta_vector.length := lt_of_lt_of_le hid hble
    refine dimStats_eq_some tToP _ _ _ _ p i hGshape hp hdet hib ?_
    rw [List.getD_eq_getElem _ _ hib]
    exact hrows _ (List.getElem_mem hib)
  have hbc1 : bcompat d d := Or.inl rfl
  have hbc2 : bcompat d args.cache.dof_global.length := Or.inl hdof.symm
  unfold remote_2
  rw [if_neg (by simp [hne])]
  simp only [hw1, hw2, hw3]
  rw [if_pos hbc1]
  rw [if_pos hbc2]
  simp only [hMSElen, mapOpt_eq_map _ _ _ hdim, List.map_map]
  rfl


theorem seF_eq_specSE (args : Args2) (d p i : ℕ) (h : phase2OK args d p) :
    (diagL (scaleM ((bdiv (sseGlobal args.input)
        args.cache.dof_global).getD i 0)
      (matInvL (varXGlobal args.input).length (varXGlobal args.input)))).map
      (fun (q : ℚ) => Real.sqrt (q : ℝ)) = specSE args p i := by
  obtain ⟨hne, hd, hp, hsse, hsst, hvarx, hdof, hble, hrows, hdet⟩ := h
  have hGshape : mrect p p (varXGlobal args.input) = true :=
    varXGlobal_shape args.input p hne hvarx
  have hGlen : (varXGlobal args.input).length = p := mrect_length hGshape
  have hGspec : varXGlobal args.input = specVarX p args.input :=
    varXGlobal_eq_spec args.input p hne hvarx
  have hsselen : (sseGlobal args.input).length = d := by
    refine vsumL_length _ d (by simpa using hne) ?_
    intro v hv
    obtain ⟨t, ht, rfl⟩ := List.mem_map.mp hv
    exact hsse t ht
  have hbz : bdiv (sseGlobal args.input) args.cache.dof_global =
      List.zipWith (· / ·) (sseGlobal args.input) args.cache.dof_global := by
    unfold bdiv
    rw [if_pos (by rw [hsselen, hdof])]
  have hmse : (bdiv (sseGlobal args.input)
      args.cache.dof_global).getD i 0 =
      (args.input.map fun s => s.2.SSE_local.getD i 0).sum /
        args.cache.dof_global.getD i 0 := by
    rw [hbz, getD_zipWith (· / ·) _ _ 0 0 0 (hsselen.trans hdof.symm) (by simp) i]
    congr 1
    rw [show sseGlobal args.input = vsumL (args.input.map fun s => s.2.SSE_local) from rfl]
    rw [vsumL_getD _ d (by simpa using hne) (fun v hv => by
      obtain ⟨t, ht, rfl⟩ := List.mem_map.mp hv
      exact hsse t ht) i]
    rw [List.map_map]
    rfl
  rw [hGlen, hmse]
  unfold specSE
  apply List.ext_getElem
  · simp [diagL, scaleM, matInvL]
  · intro j hj1 hj2
    have hjp : j < p := by simpa using hj2
    simp only [List.getElem_map, diagL, List.getElem_range]
    have hlen1 : (scaleM ((args.input.map fun s => s.2.SSE_local.getD i 0).sum /
        args.cache.dof_global.getD i 0) (matInvL p (varXGlobal args.input))).length = p := by
      simp [scaleM, matInvL]
    have hjb : j < (matInvL p (varXGlobal args.input)).length := by
      unfold matInvL
      simpa using hjp
    have h1 : (scaleM ((args.input.map fun s => s.2.SSE_local.getD i 0).sum /
        args.cache.dof_global.getD i 0) (matInvL p (varXGlobal args.input))).getD j [] =
        ((matInvL p (varXGlobal args.input)).getD j []).map
          (fun q => ((args.input.map fun s => s.2.SSE_local.getD i 0).sum /
            args.cache.dof_global.getD i 0) * q) := by
      rw [scaleM]
      rw [List.getD_eq_getElem _ _ (by simpa using hjb), List.getElem_map,
        List.getD_eq_getElem _ _ hjb]
    have hrowj : (matInvL p (varXGlobal args.input)).getD j [] =
        (List.finRange p).map
          (fun b => (toMat p (varXGlobal args.input))⁻¹ ⟨j, hjp⟩ b) := by
      rw [List.getD_eq_getElem _ _ hjb]
      simp [matInvL, List.getElem_finRange]
    rw [h1, hrowj]
    have hfr : (List.finRange p)[j]? = some (⟨j, hjp⟩ : Fin p) := by
      rw [List.getElem?_eq_getElem (by simpa using hjp)]
      simp [List.getElem_finRange]
    simp [hfr, List.getElem_finRange, ← hGspec]


/-- **C5.**  For every output dimension `i` of a valid Phase-2 input with
invertible global cross-product matrix, `remote_2` computes the
per-coefficient standard errors as the element-wise square root of the
diagonal of `MSE[i] × inverse(global cross-product matrix)` — where
`MSE[i] = SSE_global[i] / dof_global[i]` — and the t-statistic for each
coefficient as `avg_beta_vector[i][j]` divided by that standard error
(`specSE`/`specTS` are the spec-side formulas); moreover the matrix used is
the genuine inverse: multiplying the summed cross-product matrix by it
yields the identity. -/
theorem C5_standard_errors_and_t_stats (tToP : List ℝ → ℚ → List ℝ) (png : String)
    (args : Args2) (d p : ℕ) (h : phase2OK args d p) :
    (remote_2 tToP png args).map (fun o => o.ts_global) = some (specTS args d p) ∧
    toMat p (varXGlobal args.input) * toMat p (matInvL p (varXGlobal args.input)) = 1 := by
  constructor
  · rw [remote_2_eq_of_ok tToP png args d p h]
    simp only [Option.map_some']
    congr 1
    unfold specTS
    apply List.map_congr_left
    intro i _
    rw [seF_eq_specSE args d p i h]
  · obtain ⟨hne, hd, hp, hsse, hsst, hvarx, hdof, hble, hrows, hdet⟩ := h
    have hGshape : mrect p p (varXGlobal args.input) = true :=
      varXGlobal_shape args.input p hne hvarx
    have hdet2 : (toMat p (varXGlobal args.input)).det ≠ 0 := by
      rw [← detL_eq_det p _ (mrect_length hGshape) (mrect_rows hGshape)]
      exact hdet
    rw [toMat_matInvL]
    exact Matrix.mul_nonsing_inv _ (isUnit_iff_ne_zero.mpr hdet2)

theorem C5_witness :
    phase2OK exOk 1 1 ∧
      ((remote_2 (fun ts _ => ts) "png" exOk).map (fun o => o.ts_global) =
          some (specTS exOk 1 1) ∧
        toMat 1 (varXGlobal exOk.input) * toMat 1 (matInvL 1 (varXGlobal exOk.input)) = 1) := by
  have hok : phase2OK exOk 1 1 := by
    refine ⟨by decide, by decide, by decide, by decide, by decide, by decide,
      by decide, by decide, by decide, ?_⟩
    norm_num [detL, varXGlobal, msumL, madd, vadd, exOk, ex2p, site2A, site2B,
      List.range_succ, dropNth]
  exact ⟨hok, C5_standard_errors_and_t_stats (fun ts _ => ts) "png" exOk 1 1 hok⟩


theorem dimStats_some_parts (tToP : List ℝ → ℚ → List ℝ) (beta : Mat) (dof MSE : Vec)
    (G : Mat) (i : ℕ) (ts ps : List ℝ)
    (h : dimStats tToP beta dof MSE G i = some (ts, ps)) :
    ps = tToP ts (dof.getD i 0) ∧
    ts = List.zipWith (fun (b : ℚ) (s : ℝ) => (b : ℝ) / s) (beta.getD i [])
      ((diagL (scaleM (MSE.getD i 0) (matInvL G.length G))).map
        (fun (q : ℚ) => Real.sqrt (q : ℝ))) := by
  unfold dimStats at h
  by_cases hg : 0 < G.length ∧ G.all (fun row => row.length = G.length) = true
  case neg => rw [if_neg hg] at h; simp at h
  rw [if_pos hg] at h
  by_cases hdet : detL G = 0
  case pos => rw [if_pos hdet] at h; simp at h
  rw [if_neg hdet] at h
  cases hb : beta[i]? with
  | none => simp only [hb] at h; simp at h
  | some betai =>
    simp only [hb] at h
    by_cases hlen : betai.length = G.length
    case neg => rw [if_neg hlen] at h; simp at h
    rw [if_pos hlen] at h
    simp only [Option.some.injEq, Prod.mk.injEq] at h
    have hbd : beta.getD i [] = betai := by
      rw [List.getD_eq_getElem?_getD, hb]
      rfl
    exact ⟨by rw [← h.1, ← h.2], by rw [← h.1, hbd]⟩

/-- **C6.**  The cache written by Phase-1 is a read-only input to Phase-2:
(1) `remote_2`'s result depends on the cache only through `avg_beta_vector`,
`dof_global`, and `local_stats_dict` (so none of the cached fields is
recomputed from the Phase-2 payload, and the unused `mean_y_global`,
`X_labels`, `y_labels` — the last two feed only the excluded rendering
sinks — cannot influence the output); (2) each p-value row is `t_to_p`
applied to the t-statistic row and the cached `dof_global[i]` verbatim;
(3) each t-statistic row divides the cached `avg_beta_vector[i]` verbatim
by the computed standard errors.  `remote_2` writes no cache (its result
carries only `output` and `success`), so no cache field is overwritten. -/
theorem C6_cache_read_only :
    (∀ (tToP : List ℝ → ℚ → List ℝ) (png : String) (inp : List (String × Site2))
        (c c' : Cache1),
      c.avg_beta_vector = c'.avg_beta_vector → c.dof_global = c'.dof_global →
      c.local_stats_dict = c'.local_stats_dict →
      remote_2 tToP png { input := inp, cache := c } =
        remote_2 tToP png { input := inp, cache := c' }) ∧
    (∀ (tToP : List ℝ → ℚ → List ℝ) (png : String) (args : Args2),
      (remote_2 tToP png args).map (fun o => o.ps_global) =
        (remote_2 tToP png args).map (fun o =>
          (List.range o.ts_global.length).map (fun i =>
            tToP (o.ts_global.getD i []) (args.cache.dof_global.getD i 0)))) ∧
    (∀ (tToP : List ℝ → ℚ → List ℝ) (png : String) (args : Args2),
      (remote_2 tToP png args).map (fun o => o.ts_global) =
        (remote_2 tToP png args).map (fun o =>
          (List.range o.ts_global.length).map (fun i =>
            List.zipWith (fun (b : ℚ) (s : ℝ) => (b : ℝ) / s)
              (args.cache.avg_beta_vector.getD i []) (seVal args i)))) := by
  refine ⟨?_, ?_, ?_⟩
  · intro tToP png inp c c' h1 h2 h3
    cases c
    cases c'
    dsimp only at h1 h2 h3
    subst h1
    subst h2
    subst h3
    rfl
  · intro tToP png args
    cases hs : remote_2 tToP png args with
    | none => rfl
    | some o =>
      obtain ⟨hemp, de, dt, h1, h2, h3, hc1, hc2, tsps, hmap, rfl⟩ := remote_2_some_inv _ _ _ _ hs
      simp only [Option.map_some']
      congr 1
      obtain ⟨hlen, hel⟩ := (mapOpt_eq_some_iff _ _ _).mp hmap
      apply List.ext_getElem
      · simp [hlen]
      · intro k hk1 hk2
        have hk : k < tsps.length := by simpa using hk1
        simp only [List.getElem_map, List.getElem_range]
        have hdim := hel k (by rw [← hlen]; exact hk) hk
        rw [List.getElem_range] at hdim
        obtain ⟨hps, hts⟩ := dimStats_some_parts _ _ _ _ _ _ _ _
          (show _ = some (tsps[k].1, tsps[k].2) by rw [Prod.mk.eta]; exact hdim)
        rw [hps]
        congr 1
        rw [List.getD_eq_getElem _ _ (by simpa using hk), List.getElem_map]
  · intro tToP png args
    cases hs : remote_2 tToP png args with
    | none => rfl
    | some o =>
      obtain ⟨hemp, de, dt, h1, h2, h3, hc1, hc2, tsps, hmap, rfl⟩ := remote_2_some_inv _ _ _ _ hs
      simp only [Option.map_some']
      congr 1
      obtain ⟨hlen, hel⟩ := (mapOpt_eq_some_iff _ _ _).mp hmap
      apply List.ext_getElem
      · simp [hlen]
      · intro k hk1 hk2
        have hk : k < tsps.length := by simpa using hk1
        simp only [List.getElem_map, List.getElem_range]
        have hdim := hel k (by rw [← hlen]; exact hk) hk
        rw [List.getElem_range] at hdim
        obtain ⟨hps, hts⟩ := dimStats_some_parts _ _ _ _ _ _ _ _
          (show _ = some (tsps[k].1, tsps[k].2) by rw [Prod.mk.eta]; exact hdim)
        rw [hts]
        rfl

theorem C6_witness :
    (remote_2 (fun ts _ => ts) "png" { input := ex2p, cache := cacheX } =
      remote_2 (fun ts _ => ts) "png" { input := ex2p, cache := cacheX' }) ∧
    ((remote_2 (fun ts _ => ts) "png" exOk).map (fun o => o.ps_global) =
      (remote_2 (fun ts _ => ts) "png" exOk).map (fun o =>
        (List.range o.ts_global.length).map (fun i =>
          (fun ts _ => ts) (o.ts_global.getD i []) (exOk.cache.dof_global.getD i 0)))) ∧
    ((remote_2 (fun ts _ => ts) "png" exOk).map (fun o => o.ts_global) =
      (remote_2 (fun ts _ => ts) "png" exOk).map (fun o =>
        (List.range o.ts_global.length).map (fun i =>
          List.zipWith (fun (b : ℚ) (s : ℝ) => (b : ℝ) / s)
            (exOk.cache.avg_beta_vector.getD i []) (seVal exOk i)))) :=
  ⟨C6_cache_read_only.1 (fun ts _ => ts) "png" ex2p cacheX cacheX' rfl rfl rfl,
   C6_cache_read_only.2.1 (fun ts _ => ts) "png" exOk,
   C6_cache_read_only.2.2 (fun ts _ => ts) "png" exOk⟩


theorem remote_1_some_stats (input : List (String × Site1)) (o : Remote1Out)
    (h : remote_1 input = some o) :
    o.cache.local_stats_dict = input.map (fun s => s.2.local_stats_dict) := by
  cases input with
  | nil => simp [remote_1] at h
  | cons s0p rest =>
    obtain ⟨u0, s0⟩ := s0p
    unfold remote_1 at h
    cases havg : npAverage0 (((u0, s0) :: rest).map (fun s => s.2.beta_vector_local)) with
    | none => simp only [havg] at h; simp at h
    | some avgND =>
      cases hm : rectWidth? (((u0, s0) :: rest).map (fun s => s.2.mean_y_local)) with
      | none => simp only [havg, hm] at h; simp at h
      | some dm =>
        cases hc : rectWidth? (((u0, s0) :: rest).map (fun s => s.2.count_local)) with
        | none => simp only [havg, hm, hc] at h; simp at h
        | some dc =>
          simp only [havg, hm, hc] at h
          by_cases hdm : dm = dc
          case neg => rw [if_neg hdm] at h; simp at h
          rw [if_pos hdm] at h
          cases avgND with
          | d1 v => simp at h
          | d2 m =>
            simp only [Option.some.injEq] at h
            rw [← h]

/-- **C9 (counterexample).**  The claim fails as stated: for the Phase-1
payload `ex2` (site `local0` supplies blob `"statsA"`, site `local1`
supplies `"statsB"`) and a Phase-2 payload over the *same site set* but in
the opposite iteration order, the final output's `local_stats` associates
site `local1` with `"statsA"`, site `local0`'s blob — not with its own blob
`"statsB"` — because the code zips Phase-2's site order against Phase-1's
blob order. -/
theorem C9_counterexample :
    ((remote_1 ex2).bind fun o1 =>
        remote_2 (fun ts _ => ts) "png" { input := ex2pSwap, cache := o1.cache }).map
      (fun o => o.local_stats) = some [("local1", "statsA"), ("local0", "statsB")] ∧
    (ex2pSwap.map Prod.fst).Perm (ex2.map Prod.fst) ∧
    siteB.local_stats_dict = "statsB" ∧ ("statsA" : String) ≠ "statsB" := by
  refine ⟨?_, List.Perm.swap "local0" "local1" [], rfl, by decide⟩
  norm_num [remote_1, npAverage0, ex2, siteA, siteB, mapOpt, NDArr.dim1?, NDArr.dim2?,
    rectWidth?, matsShape?, mrect, vsumL, vadd, msumL, madd, remote_2, dimStats,
    ex2pSwap, site2C, site2D, sseGlobal, sstGlobal, varXGlobal, detL, dropNth,
    bcompat, bdiv, List.range_succ, Option.bind]

/-- **C9 (amended).**  In the terminal Phase-2 output, the `local_stats`
mapping associates each site identifier with that same site's own opaque
Phase-1 statistics blob — provided the Phase-2 payload lists the sites in
the same iteration order as the Phase-1 payload (the code zips Phase-2's
site order against Phase-1's blob list, so only the order, not merely the
set, guarantees the association). -/
theorem C9_local_stats_passthrough_same_order (tToP : List ℝ → ℚ → List ℝ) (png : String)
    (p1 : List (String × Site1)) (p2 : List (String × Site2))
    (horder : p2.map Prod.fst = p1.map Prod.fst) :
    ((remote_1 p1).bind fun o1 =>
        remote_2 tToP png { input := p2, cache := o1.cache }).map (fun o => o.local_stats) =
    ((remote_1 p1).bind fun o1 =>
        remote_2 tToP png { input := p2, cache := o1.cache }).map
      (fun _ => p1.map fun s => (s.1, s.2.local_stats_dict)) := by
  cases h1 : remote_1 p1 with
  | none => rfl
  | some o1 =>
    show (remote_2 tToP png { input := p2, cache := o1.cache }).map (fun o => o.local_stats) =
      (remote_2 tToP png { input := p2, cache := o1.cache }).map
        (fun _ => p1.map fun s => (s.1, s.2.local_stats_dict))
    cases h2 : remote_2 tToP png { input := p2, cache := o1.cache } with
    | none => rfl
    | some o2 =>
      obtain ⟨hemp, de, dt, hw1, hw2, hw3, hc1, hc2, tsps, hmap, rfl⟩ :=
        remote_2_some_inv _ _ _ _ h2
      simp only [Option.map_some', Option.some.injEq]
      have hstats := remote_1_some_stats p1 o1 h1
      show (p2.map Prod.fst).zip o1.cache.local_stats_dict = _
      rw [hstats, horder, List.zip_map']

theorem C9_witness :
    (ex2pAligned.map Prod.fst = ex2.map Prod.fst) ∧
    ((remote_1 ex2).bind fun o1 =>
        remote_2 (fun ts _ => ts) "png" { input := ex2pAligned, cache := o1.cache }).map
      (fun o => o.local_stats) =
    ((remote_1 ex2).bind fun o1 =>
        remote_2 (fun ts _ => ts) "png" { input := ex2pAligned, cache := o1.cache }).map
      (fun _ => ex2.map fun s => (s.1, s.2.local_stats_dict)) :=
  ⟨by decide,
   C9_local_stats_passthrough_same_order (fun ts _ => ts) "png" ex2 ex2pAligned (by decide)⟩

end SSR
